import Mathlib

/-!
Verification of the natural-language specification of the
advent-of-code-2022 repository against its code.

The repository's `util/geometry` module (Point, Bounds, Grid, Directions,
Line) is referenced by the day modules but its source is not part of the
checked tree; following the specification document, those definitions are
modelled from the spec's words (each such definition carries a doc comment
starting with "Modelled from the spec:").  Everything else (the day-8
forest, the day-14 cave, the dispatch table, the utility collection and
parser helpers) is translated directly from the Rust source.

Machine integers (`isize`, `i32`) are modelled as `Int`; the puzzle inputs
never approach the overflow range, and none of the checked claims concern
overflow behaviour.  Rust strings are modelled as their character lists;
where byte-level structure matters (the `Parser`'s range slicing), UTF-8
byte offsets are computed from the characters with `Char.utf8Size`.
-/

namespace Aoc

/-- Modelled from the spec: an immutable 2D integer coordinate
(`Point { x: isize, y: isize }`, spec section 3/4.1); missing from the
checked tree (`util/geometry.rs`). -/
structure Point where
  x : Int
  y : Int
deriving DecidableEq, Repr

/-- Modelled from the spec: `add(offset: (dx, dy)) -> Point` is a pure
function with no failure mode (spec section 4.1). -/
def Point.add (p : Point) (d : Int × Int) : Point := ⟨p.x + d.1, p.y + d.2⟩

/-- Modelled from the spec: an axis-aligned rectangle
`top, left, bottom, right : integer` (spec section 3); missing from the
checked tree (`util/geometry.rs`). -/
structure Bounds where
  top : Int
  left : Int
  bottom : Int
  right : Int
deriving DecidableEq, Repr

/-- Modelled from the spec: `contains(point)` is an inclusive rectangle
membership test (spec section 4.2). -/
def Bounds.contains (b : Bounds) (p : Point) : Bool :=
  decide (b.left ≤ p.x) && decide (p.x ≤ b.right) &&
  decide (b.top ≤ p.y) && decide (p.y ≤ b.bottom)

/-- Modelled from the spec: the growth operation used internally by Grid:
"given a new Point, return updated Bounds whose top/left/bottom/right are
each the min/max of the old value and the new Point's corresponding
coordinate" (spec section 4.2). -/
def Bounds.grow (b : Bounds) (p : Point) : Bounds :=
  ⟨min b.top p.y, min b.left p.x, max b.bottom p.y, max b.right p.x⟩

/-- Modelled from the spec: `x()` is `left..=right` inclusive, ascending
(spec section 4.2). -/
def Bounds.xs (b : Bounds) : List Int :=
  (List.range (b.right + 1 - b.left).toNat).map (fun i : Nat => b.left + (i : Int))

/-- Modelled from the spec: `y()` is `top..=bottom` inclusive, ascending
(spec section 4.2). -/
def Bounds.ys (b : Bounds) : List Int :=
  (List.range (b.bottom + 1 - b.top).toNat).map (fun i : Nat => b.top + (i : Int))

/-- Modelled from the spec: `points()` is the Cartesian product of `x()`
and `y()`, row-major (spec section 4.2). -/
def Bounds.points (b : Bounds) : List Point :=
  (b.ys.map (fun y => b.xs.map (fun x => (⟨x, y⟩ : Point)))).flatten

/-- Modelled from the spec: `Grid<V>` is a sparse mapping from Point to V
backed by a key-value store, auto-tracking its Bounds (spec section 3);
missing from the checked tree (`util/geometry.rs`).  The key-value store
is modelled as an association list with unique keys. -/
structure Grid (V : Type) where
  cells : List (Point × V)
  bounds : Bounds
deriving DecidableEq

/-- Modelled from the spec: default/empty construction yields a Grid with
no entries and degenerate Bounds (spec sections 3 and 4.3). -/
def Grid.default {V : Type} : Grid V := ⟨[], ⟨0, 0, 0, 0⟩⟩

/-- Update of the association list backing a Grid: insert or overwrite the
binding of a key, keeping keys unique. -/
def setCells {V : Type} : List (Point × V) → Point → V → List (Point × V)
  | [], p, v => [(p, v)]
  | c :: cs, p, v => if c.1 = p then (p, v) :: cs else c :: setCells cs p v

/-- Modelled from the spec: `set(point, value)` inserts or overwrites,
always succeeds, and widens Bounds to include the point (spec sections 3
and 4.3); the smallest rectangle containing a single point is that point
itself, so the first insertion into an empty Grid sets Bounds to the
inserted point. -/
def Grid.set {V : Type} (g : Grid V) (p : Point) (v : V) : Grid V :=
  ⟨setCells g.cells p v,
   match g.cells with
   | [] => ⟨p.y, p.x, p.y, p.x⟩
   | _ :: _ => g.bounds.grow p⟩

/-- Modelled from the spec: `get(point) -> Option<V>` returns a copy of
the stored value or absence; never fails (spec section 4.3). -/
def Grid.get {V : Type} (g : Grid V) (p : Point) : Option V :=
  (g.cells.find? (fun c => decide (c.1 = p))).map (fun c => c.2)

/-- Modelled from the spec: `has(point) -> bool` (spec section 4.3). -/
def Grid.has {V : Type} (g : Grid V) (p : Point) : Bool :=
  (g.get p).isSome

/-- Modelled from the spec: `entries()` is a finite snapshot of all stored
pairs (spec section 4.3). -/
def Grid.entries {V : Type} (g : Grid V) : List (Point × V) := g.cells

/-- Modelled from the spec: `values()` is the projection of `entries()`
(spec section 4.3). -/
def Grid.values {V : Type} (g : Grid V) : List V := g.cells.map (fun c => c.2)

/-- Modelled from the spec: `points()` on a Grid delegates to its Bounds
(used by day 8 as `self.trees.points()`). -/
def Grid.points {V : Type} (g : Grid V) : List Point := g.bounds.points

/-- Modelled from the spec: the closed enumeration of direction tags
(spec section 3). -/
inductive Directions where
  | top
  | right
  | bottom
  | left
  | topAll
  | rightAll
  | bottomAll
  | leftAll
  | diagonal
  | nonDiagonal
  | all
deriving DecidableEq, Repr

/-- Modelled from the spec: each of the four orthogonal tags designates a
fixed unit offset (spec sections 3 and 4.1); the remaining tags designate
offset sets, not single rays, and are not accepted by
`get_in_direction`. -/
def Directions.offset : Directions → Option (Int × Int)
  | .top => some (0, -1)
  | .right => some (1, 0)
  | .bottom => some (0, 1)
  | .left => some (-1, 0)
  | _ => none

/-- Fuel-indexed ray walk backing `get_in_direction`: visit points in unit
steps of `d`, collecting stored values, until the Bounds is exited.  The
fuel only bounds the recursion; `Grid.dirFuel` always provides enough for
the walk to reach the Bounds boundary (proved below). -/
def Grid.walkDir {V : Type} (g : Grid V) (d : Int × Int) : Nat → Point → List V
  | 0, _ => []
  | fuel + 1, p =>
    if g.bounds.contains p then
      (g.get p).toList ++ g.walkDir d fuel (p.add d)
    else []

/-- Fuel bound for `Grid.walkDir`: one more than the width plus the height
of the Bounds rectangle. -/
def Grid.dirFuel {V : Type} (g : Grid V) : Nat :=
  ((g.bounds.right - g.bounds.left) + (g.bounds.bottom - g.bounds.top) + 2).toNat

/-- Modelled from the spec: `get_in_direction(point, direction)` walks
from `point` outward in one of the four orthogonal directions until the
Grid's Bounds is exited, collecting every stored value encountered in
order (spec section 4.3).  The origin point itself is not visited. -/
def Grid.get_in_direction {V : Type} (g : Grid V) (p : Point) (dir : Directions) : List V :=
  match dir.offset with
  | some d => g.walkDir d g.dirFuel (p.add d)
  | none => []

/-- Step direction of an inclusive integer range from `a` towards `b`. -/
def intStep (a b : Int) : Int := if a ≤ b then 1 else -1

/-- Modelled from the spec: `Line { start: Point, end: Point }`
(spec section 3); missing from the checked tree (`util/geometry.rs`).
The Rust field `end` is a reserved word in Lean and is rendered `endP`. -/
structure Line where
  start : Point
  endP : Point
deriving DecidableEq

/-- Modelled from the spec: `get_points` produces the finite, ordered
sequence of integer Points lying on the straight segment between start and
end, restricted to purely horizontal or vertical segments, inclusive of
both endpoints (spec sections 3 and 8); the sequence runs from start
towards end.  No caller constructs a non-orthogonal Line, for which the
spec prescribes no rasterization; the model returns the empty sequence
there. -/
def Line.get_points (l : Line) : List Point :=
  if l.start.x = l.endP.x then
    (List.range ((l.endP.y - l.start.y).natAbs + 1)).map
      (fun i : Nat => (⟨l.start.x, l.start.y + intStep l.start.y l.endP.y * (i : Int)⟩ : Point))
  else if l.start.y = l.endP.y then
    (List.range ((l.endP.x - l.start.x).natAbs + 1)).map
      (fun i : Nat => (⟨l.start.x + intStep l.start.x l.endP.x * (i : Int), l.start.y⟩ : Point))
  else []

/-! Utility helpers translated from `src/util/collection.rs`. -/

/-- Translated from `CollectionExtension::deduplicate` for `Vec<T>`
(src/util/collection.rs): keep the first occurrence of each element, in
order. -/
def deduplicate {α : Type} [DecidableEq α] (xs : List α) : List α :=
  xs.foldl (fun r i => if i ∈ r then r else r ++ [i]) []

/-- Translated from `CollectionExtension::union` for `Vec<T>`
(src/util/collection.rs): `self.iter().cloned().filter(|v|
other.contains(v)).collect()`. -/
def union {α : Type} [DecidableEq α] (xs ys : List α) : List α :=
  xs.filter (fun v => decide (v ∈ ys))

/-! Utility text scanner translated from `src/util/parser.rs`.  The Rust
struct stores a `String` and a `usize` position.  The position is a plain
counter that the methods interpret inconsistently: `skip_whitespace`,
`usize` and `str` advance it by character counts
(`chars().skip(self.position)`), while `literal` uses it as a byte index
into the string (the range slice
`&self.input[self.position..self.position + literal.len()]`) and advances
it by the literal's byte length, and `is_exhausted` compares it against
the byte length.  The model stores the character list of the string and
computes UTF-8 byte offsets from it with `Char.utf8Size`, keeping the
position a bare counter exactly as the source does.  The panics of Rust's
range slice - the end index exceeding the string's byte length, or either
index falling inside a multi-byte character - are modelled by returning
`none`. -/

/-- UTF-8 byte length of a character list: Rust's `str::len` of the
string holding these characters. -/
def utf8Len (l : List Char) : Nat := l.foldl (fun n c => n + c.utf8Size) 0

/-- Split a character list at a byte offset, in the sense of Rust string
slicing: `some (pre, suf)` when the offset is the byte length of the
prefix `pre` (a character boundary within the string), `none` when the
offset exceeds the total byte length or falls inside a multi-byte
character - the cases in which Rust's range slice panics. -/
def splitAtByte : List Char → Nat → Option (List Char × List Char)
  | l, 0 => some ([], l)
  | [], _ + 1 => none
  | c :: cs, b + 1 =>
    if c.utf8Size ≤ b + 1 then
      match splitAtByte cs (b + 1 - c.utf8Size) with
      | some (pre, suf) => some (c :: pre, suf)
      | none => none
    else none

/-- Translated from `struct Parser` (src/util/parser.rs). -/
structure Parser where
  input : List Char
  position : Nat
deriving DecidableEq

/-- Translated from `Parser::new` (src/util/parser.rs). -/
def Parser.new (s : String) : Parser := ⟨s.data, 0⟩

/-- Translated from `Parser::skip_whitespace` (src/util/parser.rs):
`self.position += self.input.chars().skip(self.position).take_while(|c|
c.is_whitespace()).count()`. -/
def Parser.skip_whitespace (p : Parser) : Parser :=
  ⟨p.input,
   p.position + ((p.input.drop p.position).takeWhile (fun c => c.isWhitespace)).length⟩

/-- Translated from `Parser::literal` (src/util/parser.rs).  After
`skip_whitespace`, the source takes the byte slice
`&self.input[self.position..self.position + literal.len()]` - panicking
(modelled as `none` via `splitAtByte`) when the range end exceeds the
input's byte length or either range index falls inside a multi-byte
character - compares it against the literal, and on a match advances the
position by the literal's byte length; on a mismatch it returns the
descriptive error `Expected '{actual}' to match '{literal}'
('{input}':{position})`. -/
def Parser.literal (p : Parser) (lit : List Char) : Option (Except String Parser) :=
  let q := p.skip_whitespace
  match splitAtByte q.input q.position with
  | none => none
  | some (_, rest) =>
    match splitAtByte rest (utf8Len lit) with
    | none => none
    | some (actual, _) =>
      if actual = lit then
        some (Except.ok ⟨q.input, q.position + utf8Len lit⟩)
      else
        some (Except.error ("Expected '" ++ String.mk actual ++ "' to match '" ++
          String.mk lit ++ "' ('" ++ String.mk q.input ++ "':" ++
          toString q.position ++ ")"))

/-! Number parsing.  `parse_isize` (src/util/number.rs) delegates to Rust's
standard `str::parse::<isize>`: an optional sign followed by at least one
decimal digit; anything else is a descriptive error.  Overflow is not
modelled (`Int` is unbounded; the puzzle coordinates are tiny). -/

/-- Value of a list of decimal digit characters. -/
def digitsVal (cs : List Char) : Int :=
  cs.foldl (fun a c => a * 10 + ((c.toNat : Int) - 48)) 0

/-- Translated from `parse_isize` (src/util/number.rs), which wraps Rust's
standard signed-integer parsing: optional `+`/`-` sign, then one or more
decimal digits. -/
def parse_isize (s : List Char) : Except String Int :=
  let signDigits : Int × List Char :=
    match s with
    | '-' :: rest => (-1, rest)
    | '+' :: rest => (1, rest)
    | _ => (1, s)
  if signDigits.2 ≠ [] ∧ signDigits.2.all (fun c => c.isDigit) then
    Except.ok (signDigits.1 * digitsVal signDigits.2)
  else
    Except.error ("invalid digit found in string: " ++ String.mk s)

/-! Line splitting.  Rust's `str::lines` splits on `'\n'` and drops the
final empty segment produced by a trailing newline (it would also strip a
trailing `'\r'` from each line; the repository's inputs contain none). -/

/-- Split a character list on a separator character; like Rust's
`str::split`, `n` separators yield `n + 1` (possibly empty) segments. -/
def splitOnChar (sep : Char) : List Char → List (List Char)
  | [] => [[]]
  | c :: cs =>
    if c = sep then [] :: splitOnChar sep cs
    else
      match splitOnChar sep cs with
      | [] => [[c]]
      | l :: ls => (c :: l) :: ls

/-- Model of Rust's `str::lines` over the character list of a string. -/
def rustLines (s : String) : List (List Char) :=
  let parts := splitOnChar '\n' s.data
  if parts.getLast? = some [] then parts.dropLast else parts

/-! Grid construction from text.  Spec section 4.3: "given multi-line
text, scan row-major, and for grids of parseable scalar type, insert one
entry per character (digit-to-integer ... mapping)", failing with a
descriptive error on a character outside the accepted alphabet.  Spec
section 3 states that the rectangularity of the block is "only enforced
by callers, not the Grid itself", so the Grid parser performs no row
length check. -/

/-- Digit-to-integer mapping for `Grid<i32>` parsing; a character outside
the accepted alphabet is a descriptive error. -/
def charDigit (c : Char) : Except String Int :=
  if c.isDigit then Except.ok ((c.toNat : Int) - 48)
  else Except.error ("Invalid character '" ++ String.mk [c] ++ "'")

/-- Row-major entry list of one row: one entry per character, x running
from `x0`. -/
def rowEntries (y : Int) (x0 : Int) : List Char → Except String (List (Point × Int))
  | [] => Except.ok []
  | c :: cs => do
    let v ← charDigit c
    let rest ← rowEntries y (x0 + 1) cs
    pure ((⟨x0, y⟩, v) :: rest)

/-- Row-major entry list of a block of rows, y running from `y0`. -/
def gridEntries (y0 : Int) : List (List Char) → Except String (List (Point × Int))
  | [] => Except.ok []
  | r :: rs => do
    let es ← rowEntries y0 0 r
    let rest ← gridEntries (y0 + 1) rs
    pure (es ++ rest)

/-- Insert a list of entries into the empty Grid, in order. -/
def applyEntries {V : Type} (es : List (Point × V)) : Grid V :=
  es.foldl (fun g e => g.set e.1 e.2) Grid.default

/-- Modelled from the spec: the `FromStr` construction path of
`Grid<i32>` — scan row-major and insert one entry per character via the
digit-to-integer mapping (spec section 4.3); no rectangularity check
(spec section 3: "only enforced by callers, not the Grid itself"). -/
def grid_from_string (s : String) : Except String (Grid Int) :=
  (gridEntries 0 (rustLines s)).map applyEntries

/-! Day 8, translated from `src/days/day08.rs`. -/

/-- Translated from `struct Forest` (src/days/day08.rs). -/
structure Forest where
  trees : Grid Int
deriving DecidableEq

/-- The loop body of `Forest::get_visible_trees_from`: push every value,
stopping right after the first one at least as tall as `height`. -/
def takeThrough (height : Int) : List Int → List Int
  | [] => []
  | v :: vs => v :: (if height ≤ v then [] else takeThrough height vs)

/-- Translated from `Forest::get_visible_trees_from` (src/days/day08.rs,
lines 45-58). -/
def Forest.get_visible_trees_from (f : Forest) (tree : Point) (d : Directions) : List Int :=
  match f.trees.get tree with
  | none => []
  | some height => takeThrough height (f.trees.get_in_direction tree d)

/-- Translated from `Forest::get_scenic_score` (src/days/day08.rs, lines
60-67): the product over the four orthogonal directions of the number of
visible trees. -/
def Forest.get_scenic_score (f : Forest) (tree : Point) : Nat :=
  (f.get_visible_trees_from tree .top).length *
    (f.get_visible_trees_from tree .right).length *
    (f.get_visible_trees_from tree .bottom).length *
    (f.get_visible_trees_from tree .left).length

/-- Translated from `parse_input` (src/days/day08.rs, lines 74-82): all
line lengths are deduplicated; more or fewer than one distinct length is a
descriptive error; otherwise the forest is the parsed Grid. -/
def parse_input (s : String) : Except String Forest :=
  if (deduplicate ((rustLines s).map (fun l => l.length))).length ≠ 1 then
    Except.error ("Expected input lines to all have the same length, but got: " ++
      String.intercalate ", "
        ((deduplicate ((rustLines s).map (fun l => l.length))).map (fun l => toString l)))
  else
    (grid_from_string s).map (fun g => ⟨g⟩)

/-! Day 14, translated from `src/days/day14.rs`. -/

/-- Translated from `enum Tile` (src/days/day14.rs); `Air` is the
`#[default]` variant. -/
inductive Tile where
  | air
  | rock
  | sand
  | extruder
deriving DecidableEq, Repr

/-- Strip leading and trailing whitespace, like Rust's `str::trim`. -/
def trimChars (l : List Char) : List Char :=
  ((l.dropWhile (fun c => c.isWhitespace)).reverse.dropWhile
    (fun c => c.isWhitespace)).reverse

/-- Split a character list on the separator `" -> "` (Rust
`str::split(" -> ")`, scanning left to right). -/
def splitOnArrow : List Char → List (List Char)
  | [] => [[]]
  | ' ' :: '-' :: '>' :: ' ' :: cs => [] :: splitOnArrow cs
  | c :: cs =>
    match splitOnArrow cs with
    | [] => [[c]]
    | l :: ls => (c :: l) :: ls

/-- Translated from `parse_rock_line` (src/days/day14.rs, lines 65-77):
split on `" -> "`, split each part on `","`, trim, require exactly two
coordinates, and parse each as `isize`. -/
def parse_rock_line (line : List Char) : Except String (List Point) :=
  (splitOnArrow line).mapM (fun part =>
    match (splitOnChar ',' part).map trimChars with
    | [a, b] => do
      let x ← parse_isize a
      let y ← parse_isize b
      pure (⟨x, y⟩ : Point)
    | _ => Except.error ("Invalid coordinate '" ++ String.mk part ++ "'"))

/-- Translated from `create_cave` (src/days/day14.rs, lines 47-63):
each input line is a rock path; every consecutive point pair is one Line
whose points are set to Rock; finally the extruder is set at (500, 0). -/
def create_cave (s : String) : Except String (Grid Tile) := do
  let cave ← (rustLines s).foldlM
    (fun (cave : Grid Tile) r_line => do
      let points ← parse_rock_line r_line
      pure ((points.zip points.tail).foldl
        (fun c pr =>
          (Line.mk pr.1 pr.2).get_points.foldl (fun c p => c.set p Tile.rock) c)
        cave))
    Grid.default
  pure (cave.set ⟨500, 0⟩ Tile.extruder)

/-- Translated from `Cave::get_tile` (src/days/day14.rs, lines 148-155):
without flooring, a point inside the current bounds reads as its stored
tile (defaulting to Air) and a point outside reads as `None`; with
flooring at `val`, points above the floor read as stored (default Air) and
points at or below it read as Rock. -/
def get_tile (g : Grid Tile) (point : Point) (flooring : Option Int) : Option Tile :=
  match flooring with
  | none => if g.bounds.contains point then some ((g.get point).getD Tile.air) else none
  | some val => if val > point.y then some ((g.get point).getD Tile.air) else some Tile.rock

/-- Outcome of one simulated unit of sand: it either leaves the known
area at an out-of-bounds point, or comes to rest at a point. -/
inductive FallResult where
  | abyss (p : Point)
  | rest (p : Point)
deriving DecidableEq, Repr

/-- The `'main: loop` of `Cave::drop_sand` (src/days/day14.rs, lines
109-145), fuel-indexed: from the current point, fall to the point below if
it is free, else try below-left then below-right, else come to rest at the
current point; an out-of-bounds read below means the abyss.  `none` means
the fuel ran out; `dropFuel` below always suffices (proved below). -/
def sandFall (g : Grid Tile) (flooring : Option Int) : Nat → Point → Option FallResult
  | 0, _ => none
  | fuel + 1, current =>
    let next : Point := ⟨current.x, current.y + 1⟩
    match get_tile g next flooring with
    | none => some (.abyss next)
    | some Tile.air | some Tile.extruder => sandFall g flooring fuel next
    | some Tile.rock | some Tile.sand =>
      let lft : Point := ⟨next.x - 1, next.y⟩
      match get_tile g lft flooring with
      | none | some Tile.air | some Tile.extruder => sandFall g flooring fuel lft
      | some Tile.rock | some Tile.sand =>
        let rgt : Point := ⟨next.x + 1, next.y⟩
        match get_tile g rgt flooring with
        | none | some Tile.air | some Tile.extruder => sandFall g flooring fuel rgt
        | some Tile.rock | some Tile.sand => some (.rest current)

/-- The y coordinate below which every simulated sand unit must stop or
leave: the bounds' bottom, or the floor when one is deeper. -/
def fallLimit (g : Grid Tile) (flooring : Option Int) : Int :=
  match flooring with
  | none => g.bounds.bottom
  | some val => max g.bounds.bottom val

/-- Sufficient fuel for `sandFall` starting at `e` (proved below). -/
def dropFuel (g : Grid Tile) (flooring : Option Int) (e : Point) : Nat :=
  (fallLimit g flooring + 2 - e.y).toNat + 1

/-- The extruder lookup opening `Cave::drop_sand`:
`known_cells.iter().find(|(_, t)| Tile::Extruder.eq(t)).map(|(p, _)| p)`. -/
def findExtruder (g : Grid Tile) : Option Point :=
  (g.entries.find? (fun c => decide (c.2 = Tile.extruder))).map (fun c => c.1)

/-- Translated from `Cave::drop_sand` (src/days/day14.rs, lines 95-146):
no extruder means `false`; a unit falling into the abyss means `false`
with the cave untouched; a unit coming to rest means `true` with a Sand
tile set at the resting point.  `none` models only exhaustion of the
recursion fuel, which `dropFuel` prevents (proved below). -/
def drop_sand (g : Grid Tile) (flooring : Option Int) : Option (Bool × Grid Tile) :=
  match findExtruder g with
  | none => some (false, g)
  | some e =>
    match sandFall g flooring (dropFuel g flooring e) e with
    | some (.abyss _) => some (false, g)
    | some (.rest q) => some (true, g.set q Tile.sand)
    | none => none

/-! Day dispatch, translated from `src/days.rs`. -/

/-- The five entries of the dispatch table in `src/days.rs`; each stands
for one `Day` value (a pair of puzzle entry points, whose console effects
are outside the model). -/
inductive DayTag where
  | d1
  | d2
  | d3
  | d4
  | d5
deriving DecidableEq, Repr

/-- Translated from `get_day` (src/days.rs, lines 18-28): days 1 through 5
have entries; any other day is the descriptive error. -/
def get_day (day : Int) : Except String DayTag :=
  if day = 1 then Except.ok .d1
  else if day = 2 then Except.ok .d2
  else if day = 3 then Except.ok .d3
  else if day = 4 then Except.ok .d4
  else if day = 5 then Except.ok .d5
  else Except.error ("No implementation yet for day " ++ toString day)

/-! Concrete inputs used by the tests and the spec's scenarios. -/

/-- The day-8 example input (src/days/day08.rs, `TEST_INPUT`): rows
30373 / 25512 / 65332 / 33549 / 35390, newline-terminated. -/
def day8ExampleInput : String := "30373\n25512\n65332\n33549\n35390\n"

/-! Claim theorems. -/

/-- C10: for every pair of vectors over an `Eq + Clone` element type,
`CollectionExtension::union(a, b)` returns exactly the elements of `a`
that also occur in `b`, in `a`'s order (an intersection filtered by
membership in `b`, not a set union): membership is conjunction of the two
memberships, the result is a sublist of `a` (hence in `a`'s order, with
`a`'s multiplicities), and elements of `b` absent from `a` never
appear. -/
theorem union_spec {α : Type} [DecidableEq α] (a b : List α) :
    (∀ x, x ∈ union a b ↔ x ∈ a ∧ x ∈ b) ∧
    (union a b).Sublist a ∧
    (∀ x, x ∈ b → x ∉ a → x ∉ union a b) ∧
    (∀ x, (union a b).count x = if x ∈ b then a.count x else 0) := by
  refine ⟨?_, ?_, ?_, ?_⟩
  · intro x
    simp [union, List.mem_filter]
  · exact List.filter_sublist a
  · intro x _ hxa hmem
    have : x ∈ a ∧ x ∈ b := by
      simpa [union, List.mem_filter] using hmem
    exact hxa this.1
  · intro x
    by_cases hx : x ∈ b
    · rw [if_pos hx]
      unfold union
      rw [List.count_filter]
      simp [hx]
    · rw [if_neg hx]
      refine List.count_eq_zero.mpr ?_
      intro hmem
      have : x ∈ a ∧ x ∈ b := by
        simpa [union, List.mem_filter] using hmem
      exact hx this.2

/-- C8: for every integer day number, `get_day` returns `Ok` with a day
entry when the day is in the dispatch table (days 1 through 5), and
otherwise `Err` with a descriptive error string naming the day; being a
total function into `Except`, there is no third outcome and no panic. -/
theorem get_day_spec (d : Int) :
    ((1 ≤ d ∧ d ≤ 5) → ∃ t, get_day d = Except.ok t) ∧
    (¬(1 ≤ d ∧ d ≤ 5) →
      get_day d = Except.error ("No implementation yet for day " ++ toString d)) := by
  constructor
  · intro h
    unfold get_day
    split_ifs <;> first | exact ⟨_, rfl⟩ | omega
  · intro h
    unfold get_day
    split_ifs <;> first | rfl | omega

/-- Witness for C8: day 3 is dispatched and day 0 is the descriptive
error. -/
theorem get_day_spec_witness :
    (∃ t, get_day 3 = Except.ok t) ∧
    get_day 0 = Except.error ("No implementation yet for day " ++ toString (0 : Int)) :=
  ⟨(get_day_spec 3).1 (by norm_num), (get_day_spec 0).2 (by norm_num)⟩

set_option maxRecDepth 4000 in
/-- C5: on the Forest parsed from the day-8 example grid, the scenic score
of the point x=2, y=1 is 4 and the scenic score of the point x=2, y=3 is
8 (the score being the product over the four orthogonal directions of the
number of visible trees). -/
theorem scenic_score_example :
    (parse_input day8ExampleInput).toOption.map
      (fun f => (f.get_scenic_score ⟨2, 1⟩, f.get_scenic_score ⟨2, 3⟩)) =
      some (4, 8) := by
  decide

/-- C9 counterexample: `Parser::literal` is not total.  On the input
string "a" with the two-character literal "ab", the byte slice
`&self.input[0..2]` is out of range and the source panics (modelled as
`none`); on the input "éa" with the literal "a", two bytes remain but the
slice end, byte index 1, falls inside the two-byte character 'é' and the
source panics as well.  So the claim that `literal` never panics when
fewer characters remain than the literal's length, or when a slice
boundary falls inside a multi-byte character, is false on both counts. -/
theorem literal_panics :
    (Parser.new "a").literal ['a', 'b'] = none ∧
    (Parser.new "éa").literal ['a'] = none := by
  constructor <;> rfl

/-- C9 amended: `Parser::literal` skips leading whitespace and then byte
slices `input[position..position + literal.len()]`.  When both ends of
that byte range fall on character boundaries within the input (the two
`splitAtByte` hypotheses), `literal` is total: it returns `Ok` and
consumes the literal when the slice equals it, and a descriptive `Err`
otherwise.  When the range end exceeds the input's byte length or either
end falls inside a multi-byte character, the slice panics instead of
returning. -/
theorem literal_spec (pr : Parser) (lit pre rest actual suf : List Char)
    (h1 : splitAtByte pr.skip_whitespace.input pr.skip_whitespace.position =
      some (pre, rest))
    (h2 : splitAtByte rest (utf8Len lit) = some (actual, suf)) :
    (actual = lit → pr.literal lit =
      some (Except.ok ⟨pr.input, pr.skip_whitespace.position + utf8Len lit⟩)) ∧
    (actual ≠ lit → ∃ msg, pr.literal lit = some (Except.error msg)) := by
  constructor
  · intro hm
    simp only [Parser.literal, h1, h2]
    rw [if_pos hm]
    rfl
  · intro hm
    refine ⟨"Expected '" ++ String.mk actual ++ "' to match '" ++
      String.mk lit ++ "' ('" ++ String.mk pr.skip_whitespace.input ++ "':" ++
      toString pr.skip_whitespace.position ++ ")", ?_⟩
    simp only [Parser.literal, h1, h2]
    rw [if_neg hm]

/-- Witness for C9's amended theorem: scanning "  ab cd" for the literal
"ab" skips the two blanks (both slice ends are character boundaries) and
consumes it, ending at byte position 4. -/
theorem literal_spec_witness :
    (Parser.new "  ab cd").literal ['a', 'b'] =
      some (Except.ok ⟨"  ab cd".data, 4⟩) :=
  (literal_spec (Parser.new "  ab cd") ['a', 'b'] [' ', ' ']
    ['a', 'b', ' ', 'c', 'd'] ['a', 'b'] [' ', 'c', 'd']
    (by decide) (by decide)).1 (by decide)

/-- The rock path of the first line of the day-14 example input. -/
def c6path : List Point := [⟨498, 4⟩, ⟨498, 6⟩, ⟨496, 6⟩]

/-- Componentwise equality of Points. -/
lemma Point.eq_of_coords {p q : Point} (hx : p.x = q.x) (hy : p.y = q.y) : p = q := by
  cases p
  cases q
  simp_all

/-- Membership in the vertical inclusive ray from `(sx, sy)` to
`(sx, ey)`. -/
lemma mem_vertical_ray (sx sy ey : Int) (q : Point) :
    (q ∈ (List.range ((ey - sy).natAbs + 1)).map
      (fun i : Nat => (⟨sx, sy + intStep sy ey * (i : Int)⟩ : Point))) ↔
    (q.x = sx ∧ min sy ey ≤ q.y ∧ q.y ≤ max sy ey) := by
  simp only [List.mem_map, List.mem_range]
  rcases le_or_lt sy ey with h | h
  · rw [min_eq_left h, max_eq_right h]
    simp only [intStep, if_pos h]
    constructor
    · rintro ⟨i, hi, heq⟩
      have hx := congrArg Point.x heq
      have hy := congrArg Point.y heq
      dsimp only at hx hy
      omega
    · rintro ⟨hx, h1, h2⟩
      refine ⟨(q.y - sy).toNat, by omega, ?_⟩
      apply Point.eq_of_coords <;> dsimp only <;> omega
  · rw [min_eq_right (le_of_lt h), max_eq_left (le_of_lt h)]
    have hns : ¬ (sy ≤ ey) := by omega
    simp only [intStep, if_neg hns]
    constructor
    · rintro ⟨i, hi, heq⟩
      have hx := congrArg Point.x heq
      have hy := congrArg Point.y heq
      dsimp only at hx hy
      omega
    · rintro ⟨hx, h1, h2⟩
      refine ⟨(sy - q.y).toNat, by omega, ?_⟩
      apply Point.eq_of_coords <;> dsimp only <;> omega

/-- Membership in the horizontal inclusive ray from `(sx, sy)` to
`(ex, sy)`. -/
lemma mem_horizontal_ray (sx sy ex : Int) (q : Point) :
    (q ∈ (List.range ((ex - sx).natAbs + 1)).map
      (fun i : Nat => (⟨sx + intStep sx ex * (i : Int), sy⟩ : Point))) ↔
    (q.y = sy ∧ min sx ex ≤ q.x ∧ q.x ≤ max sx ex) := by
  simp only [List.mem_map, List.mem_range]
  rcases le_or_lt sx ex with h | h
  · rw [min_eq_left h, max_eq_right h]
    simp only [intStep, if_pos h]
    constructor
    · rintro ⟨i, hi, heq⟩
      have hx := congrArg Point.x heq
      have hy := congrArg Point.y heq
      dsimp only at hx hy
      omega
    · rintro ⟨hy, h1, h2⟩
      refine ⟨(q.x - sx).toNat, by omega, ?_⟩
      apply Point.eq_of_coords <;> dsimp only <;> omega
  · rw [min_eq_right (le_of_lt h), max_eq_left (le_of_lt h)]
    have hns : ¬ (sx ≤ ex) := by omega
    simp only [intStep, if_neg hns]
    constructor
    · rintro ⟨i, hi, heq⟩
      have hx := congrArg Point.x heq
      have hy := congrArg Point.y heq
      dsimp only at hx hy
      omega
    · rintro ⟨hy, h1, h2⟩
      refine ⟨(sx - q.x).toNat, by omega, ?_⟩
      apply Point.eq_of_coords <;> dsimp only <;> omega

/-- First and last element of an inclusive ray of `n + 1` mapped range
indices. -/
lemma ray_head_last (n : Nat) (f : Nat → Point) :
    ((List.range (n + 1)).map f).head? = some (f 0) ∧
    ((List.range (n + 1)).map f).getLast? = some (f n) := by
  constructor
  · rw [List.range_succ_eq_map]
    rfl
  · rw [List.range_succ, List.map_append]
    exact List.getLast?_concat _

/-- Head and last of a vertical Line's points: start first, end last. -/
lemma get_points_head_last_vertical (l : Line) (h : l.start.x = l.endP.x) :
    l.get_points.head? = some l.start ∧ l.get_points.getLast? = some l.endP := by
  rw [Line.get_points, if_pos h]
  obtain ⟨h1, h2⟩ := ray_head_last ((l.endP.y - l.start.y).natAbs)
    (fun i : Nat =>
      (⟨l.start.x, l.start.y + intStep l.start.y l.endP.y * (i : Int)⟩ : Point))
  rw [h1, h2]
  constructor
  · congr 1
    apply Point.eq_of_coords <;> simp
  · congr 1
    apply Point.eq_of_coords <;> dsimp only
    · exact h
    · unfold intStep
      split <;> omega

/-- Head and last of a horizontal Line's points: start first, end last. -/
lemma get_points_head_last_horizontal (l : Line) (h : l.start.y = l.endP.y) :
    l.get_points.head? = some l.start ∧ l.get_points.getLast? = some l.endP := by
  by_cases hx : l.start.x = l.endP.x
  · exact get_points_head_last_vertical l hx
  rw [Line.get_points, if_neg hx, if_pos h]
  obtain ⟨h1, h2⟩ := ray_head_last ((l.endP.x - l.start.x).natAbs)
    (fun i : Nat =>
      (⟨l.start.x + intStep l.start.x l.endP.x * (i : Int), l.start.y⟩ : Point))
  rw [h1, h2]
  constructor
  · congr 1
    apply Point.eq_of_coords <;> simp
  · congr 1
    apply Point.eq_of_coords <;> dsimp only
    · unfold intStep
      split <;> omega
    · exact h

/-- C6: for every purely horizontal or vertical Line, `get_points` is the
finite ordered set of integer points on the segment from start to end,
inclusive of both endpoints: membership is exactly segment membership, the
sequence runs from start (first) to end (last), the Line from (498,4) to
(498,6) produces exactly [(498,4),(498,5),(498,6)], and the day-14 path
"498,4 -> 498,6 -> 496,6" is split at (498,6) into orthogonal segments,
so no caller constructs the non-orthogonal Line (498,4)-(496,6)
directly. -/
theorem line_points_spec :
    (∀ (l : Line) (q : Point), l.start.x = l.endP.x →
      (q ∈ l.get_points ↔
        q.x = l.start.x ∧ min l.start.y l.endP.y ≤ q.y ∧ q.y ≤ max l.start.y l.endP.y)) ∧
    (∀ (l : Line) (q : Point), l.start.y = l.endP.y →
      (q ∈ l.get_points ↔
        q.y = l.start.y ∧ min l.start.x l.endP.x ≤ q.x ∧ q.x ≤ max l.start.x l.endP.x)) ∧
    (∀ l : Line, l.start.x = l.endP.x ∨ l.start.y = l.endP.y →
      l.get_points.head? = some l.start ∧ l.get_points.getLast? = some l.endP) ∧
    (Line.mk ⟨498, 4⟩ ⟨498, 6⟩).get_points = [⟨498, 4⟩, ⟨498, 5⟩, ⟨498, 6⟩] ∧
    parse_rock_line "498,4 -> 498,6 -> 496,6".data = Except.ok c6path ∧
    (∀ pr ∈ c6path.zip c6path.tail, pr.1.x = pr.2.x ∨ pr.1.y = pr.2.y) := by
  refine ⟨?_, ?_, ?_, by decide, by rfl, by decide⟩
  · intro l q h
    rw [Line.get_points, if_pos h]
    exact mem_vertical_ray l.start.x l.start.y l.endP.y q
  · intro l q h
    by_cases hx : l.start.x = l.endP.x
    · rw [Line.get_points, if_pos hx, mem_vertical_ray, ← h, ← hx]
      simp only [min_self, max_self]
      omega
    · rw [Line.get_points, if_neg hx, if_pos h]
      exact mem_horizontal_ray l.start.x l.start.y l.endP.x q
  · intro l h
    by_cases hx : l.start.x = l.endP.x
    · exact get_points_head_last_vertical l hx
    · exact get_points_head_last_horizontal l (h.resolve_left hx)

/-- Witness for C6: the two quantified segment characterizations and the
endpoint property, instantiated on the concrete Lines of the day-14
example (vertical (498,4)-(498,6) and horizontal (498,6)-(496,6)). -/
theorem line_points_spec_witness :
    ((⟨497, 5⟩ : Point) ∈ (Line.mk ⟨498, 4⟩ ⟨498, 6⟩).get_points ↔
      (497 : Int) = 498 ∧ (4 : Int) ≤ 5 ∧ (5 : Int) ≤ 6) ∧
    ((⟨497, 6⟩ : Point) ∈ (Line.mk ⟨498, 6⟩ ⟨496, 6⟩).get_points ↔
      (6 : Int) = 6 ∧ (496 : Int) ≤ 497 ∧ (497 : Int) ≤ 498) ∧
    ((Line.mk ⟨498, 6⟩ ⟨496, 6⟩).get_points.head? = some ⟨498, 6⟩ ∧
      (Line.mk ⟨498, 6⟩ ⟨496, 6⟩).get_points.getLast? = some ⟨496, 6⟩) := by
  refine ⟨?_, ?_, ?_⟩
  · have := line_points_spec.1 (Line.mk ⟨498, 4⟩ ⟨498, 6⟩) ⟨497, 5⟩ (by decide)
    simpa using this
  · have := line_points_spec.2.1 (Line.mk ⟨498, 6⟩ ⟨496, 6⟩) ⟨497, 6⟩ (by decide)
    simpa using this
  · exact line_points_spec.2.2.1 (Line.mk ⟨498, 6⟩ ⟨496, 6⟩) (Or.inr rfl)

/-- The update of an association list is never empty. -/
lemma setCells_ne_nil {V : Type} (cs : List (Point × V)) (p : Point) (v : V) :
    setCells cs p v ≠ [] := by
  cases cs with
  | nil => simp [setCells]
  | cons c cs =>
    simp only [setCells]
    split <;> simp

/-- A Grid that received a `set` call has at least one entry. -/
lemma Grid.set_cells_ne_nil {V : Type} (g : Grid V) (p : Point) (v : V) :
    (g.set p v).cells ≠ [] := setCells_ne_nil g.cells p v

/-- Growing Bounds by a point makes it contain that point. -/
lemma Bounds.contains_grow_self (b : Bounds) (p : Point) :
    (b.grow p).contains p = true := by
  simp only [Bounds.contains, Bounds.grow, Bool.and_eq_true, decide_eq_true_eq]
  omega

/-- Growing Bounds preserves every contained point. -/
lemma Bounds.contains_grow_mono (b : Bounds) (p q : Point)
    (h : b.contains q = true) : (b.grow p).contains q = true := by
  simp only [Bounds.contains, Bounds.grow, Bool.and_eq_true, decide_eq_true_eq] at h ⊢
  omega

/-- After a `set` call, the Bounds contains the inserted point. -/
lemma Grid.set_bounds_contains_self {V : Type} (g : Grid V) (p : Point) (v : V) :
    (g.set p v).bounds.contains p = true := by
  obtain ⟨cells, b⟩ := g
  cases cells with
  | nil => simp [Grid.set, Bounds.contains]
  | cons c cs => exact Bounds.contains_grow_self b p

/-- On a nonempty Grid, a `set` call preserves every point the Bounds
already contained. -/
lemma Grid.set_bounds_mono {V : Type} (g : Grid V) (p : Point) (v : V) (q : Point)
    (hne : g.cells ≠ []) (h : g.bounds.contains q = true) :
    (g.set p v).bounds.contains q = true := by
  obtain ⟨cells, b⟩ := g
  cases cells with
  | nil => exact absurd rfl hne
  | cons c cs => exact Bounds.contains_grow_mono b p q h

/-- Folding `set` calls never empties a nonempty Grid. -/
lemma foldl_set_cells_ne_nil {V : Type} (es : List (Point × V)) (g : Grid V)
    (hne : g.cells ≠ []) :
    (es.foldl (fun g e => g.set e.1 e.2) g).cells ≠ [] := by
  induction es generalizing g with
  | nil => exact hne
  | cons e es ih => exact ih _ (Grid.set_cells_ne_nil _ _ _)

/-- Folding `set` calls over a nonempty Grid preserves Bounds
containment. -/
lemma foldl_set_contains_preserved {V : Type} (es : List (Point × V)) (g : Grid V)
    (q : Point) (hne : g.cells ≠ []) (h : g.bounds.contains q = true) :
    (es.foldl (fun g e => g.set e.1 e.2) g).bounds.contains q = true := by
  induction es generalizing g with
  | nil => exact h
  | cons e es ih =>
    exact ih _ (Grid.set_cells_ne_nil _ _ _) (Grid.set_bounds_mono _ _ _ _ hne h)

/-- After folding `set` calls, the Bounds contains every inserted key. -/
lemma foldl_set_contains_mem {V : Type} (es : List (Point × V)) (g : Grid V)
    (e : Point × V) (he : e ∈ es) :
    (es.foldl (fun g e => g.set e.1 e.2) g).bounds.contains e.1 = true := by
  induction es generalizing g with
  | nil => cases he
  | cons e0 es ih =>
    rcases List.mem_cons.mp he with rfl | hmem
    · exact foldl_set_contains_preserved es _ _ (Grid.set_cells_ne_nil _ _ _)
        (Grid.set_bounds_contains_self _ _ _)
    · exact ih _ hmem

/-- C1: for every sequence of `set(point, value)` calls starting from the
empty Grid, the final Bounds contains (inclusively) every point ever
passed to `set`; each `set` makes the Bounds contain its point, a `set` on
a nonempty Grid updates the Bounds by independent min/max updates on each
axis, and the Bounds never shrinks (every contained point stays
contained across further `set` calls). -/
theorem grid_bounds_invariant (V : Type) :
    (∀ (ops : List (Point × V)) (e : Point × V), e ∈ ops →
      (applyEntries ops).bounds.contains e.1 = true) ∧
    (∀ (g : Grid V) (p : Point) (v : V), (g.set p v).bounds.contains p = true) ∧
    (∀ (g : Grid V) (p : Point) (v : V), g.cells ≠ [] →
      (g.set p v).bounds =
        ⟨min g.bounds.top p.y, min g.bounds.left p.x,
         max g.bounds.bottom p.y, max g.bounds.right p.x⟩) ∧
    (∀ (g : Grid V) (p : Point) (v : V) (q : Point), g.cells ≠ [] →
      g.bounds.contains q = true → (g.set p v).bounds.contains q = true) := by
  refine ⟨?_, ?_, ?_, ?_⟩
  · intro ops e he
    exact foldl_set_contains_mem ops Grid.default e he
  · exact Grid.set_bounds_contains_self
  · intro g p v hne
    obtain ⟨cells, b⟩ := g
    cases cells with
    | nil => exact absurd rfl hne
    | cons c cs => rfl
  · exact fun g p v q => Grid.set_bounds_mono g p v q

/-- Witness for C1: a two-insertion sequence whose final Bounds contains
both inserted points, and a second insertion preserving containment of the
first point. -/
theorem grid_bounds_invariant_witness :
    (applyEntries [((⟨5, -3⟩ : Point), (7 : Int)), (⟨-2, 9⟩, 1)]).bounds.contains ⟨-2, 9⟩ = true ∧
    ((Grid.default.set (⟨1, 1⟩ : Point) (0 : Int)).set ⟨4, 4⟩ 0).bounds.contains ⟨1, 1⟩ = true :=
  ⟨(grid_bounds_invariant Int).1 _ (⟨-2, 9⟩, 1) (by decide),
   (grid_bounds_invariant Int).2.2.2 _ ⟨4, 4⟩ 0 ⟨1, 1⟩ (by decide) (by decide)⟩

/-- The point reached after `i` unit steps of `d` from `q`. -/
def rayPt (q : Point) (d : Int × Int) (i : Nat) : Point :=
  ⟨q.x + d.1 * (i : Int), q.y + d.2 * (i : Int)⟩

/-- Number of consecutive ray points from `q` (inclusive) in the
direction's offset that lie inside `b`: the number of cells
`get_in_direction`'s walk visits before exiting `b`. -/
def runLen (b : Bounds) (dir : Directions) (q : Point) : Nat :=
  if b.contains q = true then
    match dir with
    | .top => (q.y - b.top + 1).toNat
    | .right => (b.right - q.x + 1).toNat
    | .bottom => (b.bottom - q.y + 1).toNat
    | .left => (q.x - b.left + 1).toNat
    | _ => 0
  else 0

/-- Zero steps of a ray stay at the origin. -/
lemma rayPt_zero (q : Point) (d : Int × Int) : rayPt q d 0 = q := by
  apply Point.eq_of_coords <;> simp [rayPt]

/-- One more ray step from `q` is a ray step count from `q.add d`. -/
lemma rayPt_succ (q : Point) (d : Int × Int) (i : Nat) :
    rayPt q d (i + 1) = rayPt (q.add d) d i := by
  apply Point.eq_of_coords <;> simp [rayPt, Point.add] <;> push_cast <;> ring

/-- A point with a vanished run length lies outside the Bounds (for the
four orthogonal directions). -/
lemma contains_false_of_runLen_zero {dir : Directions} {d : Int × Int}
    (hd : dir.offset = some d) (b : Bounds) (q : Point)
    (h0 : runLen b dir q = 0) : b.contains q = false := by
  by_cases hc : b.contains q = true
  · exfalso
    have hc' := hc
    simp only [Bounds.contains, Bool.and_eq_true, decide_eq_true_eq] at hc'
    unfold runLen at h0
    rw [if_pos hc] at h0
    cases dir <;> simp [Directions.offset] at hd <;> simp at h0 <;> omega
  · simpa using hc

/-- While inside the Bounds, the run length decreases by exactly one per
step (for the four orthogonal directions). -/
lemma runLen_succ {dir : Directions} {d : Int × Int}
    (hd : dir.offset = some d) (b : Bounds) (q : Point)
    (hc : b.contains q = true) :
    runLen b dir q = runLen b dir (q.add d) + 1 := by
  have hc' := hc
  simp only [Bounds.contains, Bool.and_eq_true, decide_eq_true_eq] at hc'
  cases dir <;> simp [Directions.offset] at hd
  case top =>
    subst hd
    unfold runLen
    rw [if_pos hc]
    by_cases hc2 : b.contains (q.add (0, -1)) = true
    · have hc2' := hc2
      simp only [Bounds.contains, Point.add, Bool.and_eq_true, decide_eq_true_eq] at hc2'
      rw [if_pos hc2]
      dsimp only [Point.add]
      omega
    · have hy : ¬ (b.top ≤ q.y - 1) := by
        intro hy
        apply hc2
        simp only [Bounds.contains, Point.add, Bool.and_eq_true, decide_eq_true_eq]
        omega
      rw [if_neg hc2]
      dsimp only
      omega
  case right =>
    subst hd
    unfold runLen
    rw [if_pos hc]
    by_cases hc2 : b.contains (q.add (1, 0)) = true
    · have hc2' := hc2
      simp only [Bounds.contains, Point.add, Bool.and_eq_true, decide_eq_true_eq] at hc2'
      rw [if_pos hc2]
      dsimp only [Point.add]
      omega
    · have hx : ¬ (q.x + 1 ≤ b.right) := by
        intro hx
        apply hc2
        simp only [Bounds.contains, Point.add, Bool.and_eq_true, decide_eq_true_eq]
        omega
      rw [if_neg hc2]
      dsimp only
      omega
  case bottom =>
    subst hd
    unfold runLen
    rw [if_pos hc]
    by_cases hc2 : b.contains (q.add (0, 1)) = true
    · have hc2' := hc2
      simp only [Bounds.contains, Point.add, Bool.and_eq_true, decide_eq_true_eq] at hc2'
      rw [if_pos hc2]
      dsimp only [Point.add]
      omega
    · have hy : ¬ (q.y + 1 ≤ b.bottom) := by
        intro hy
        apply hc2
        simp only [Bounds.contains, Point.add, Bool.and_eq_true, decide_eq_true_eq]
        omega
      rw [if_neg hc2]
      dsimp only
      omega
  case left =>
    subst hd
    unfold runLen
    rw [if_pos hc]
    by_cases hc2 : b.contains (q.add (-1, 0)) = true
    · have hc2' := hc2
      simp only [Bounds.contains, Point.add, Bool.and_eq_true, decide_eq_true_eq] at hc2'
      rw [if_pos hc2]
      dsimp only [Point.add]
      omega
    · have hx : ¬ (b.left ≤ q.x - 1) := by
        intro hx
        apply hc2
        simp only [Bounds.contains, Point.add, Bool.and_eq_true, decide_eq_true_eq]
        omega
      rw [if_neg hc2]
      dsimp only
      omega

/-- Unfolding of one step of the ray walk. -/
lemma walkDir_succ {V : Type} (g : Grid V) (d : Int × Int) (fuel : Nat) (q : Point) :
    g.walkDir d (fuel + 1) q =
      if g.bounds.contains q = true then
        (g.get q).toList ++ g.walkDir d fuel (q.add d)
      else [] := rfl

/-- Peeling the first point off an inclusive ray list. -/
lemma ray_range_succ (q : Point) (d : Int × Int) (m : Nat) :
    (List.range (m + 1)).map (fun i => rayPt q d i) =
      q :: (List.range m).map (fun i => rayPt (q.add d) d i) := by
  rw [List.range_succ_eq_map, List.map_cons, rayPt_zero, List.map_map]
  congr 1
  apply List.map_congr_left
  intro i _
  simp only [Function.comp_apply]
  exact rayPt_succ q d i

/-- The run length never exceeds the walk fuel `dirFuel`. -/
lemma runLen_le_dirFuel {V : Type} (g : Grid V) (dir : Directions) (q : Point) :
    runLen g.bounds dir q ≤ g.dirFuel := by
  unfold runLen Grid.dirFuel
  by_cases hc : g.bounds.contains q = true
  · have hc' := hc
    simp only [Bounds.contains, Bool.and_eq_true, decide_eq_true_eq] at hc'
    rw [if_pos hc]
    cases dir <;> simp <;> omega
  · rw [if_neg hc]
    omega

/-- No point of the outward ray from `p` is `p` itself (the offset of an
orthogonal direction is nonzero). -/
lemma rayPt_ne_origin {dir : Directions} {d : Int × Int} (hd : dir.offset = some d)
    (p : Point) (i : Nat) : rayPt (p.add d) d i ≠ p := by
  intro heq
  have hx := congrArg Point.x heq
  have hy := congrArg Point.y heq
  simp only [rayPt, Point.add] at hx hy
  cases dir <;> simp [Directions.offset] at hd <;> subst hd <;> simp at hx hy <;> omega

/-- The fueled walk with sufficient fuel visits exactly the `runLen`
consecutive in-bounds ray points, collecting their stored values in
order, and the next ray point is out of bounds. -/
lemma walkDir_spec {V : Type} (g : Grid V) {dir : Directions} {d : Int × Int}
    (hd : dir.offset = some d) :
    ∀ (fuel : Nat) (q : Point), runLen g.bounds dir q ≤ fuel →
      g.walkDir d fuel q =
        ((List.range (runLen g.bounds dir q)).map (fun i => rayPt q d i)).filterMap g.get ∧
      (∀ i, i < runLen g.bounds dir q → g.bounds.contains (rayPt q d i) = true) ∧
      g.bounds.contains (rayPt q d (runLen g.bounds dir q)) = false := by
  intro fuel
  induction fuel with
  | zero =>
    intro q hle
    have h0 : runLen g.bounds dir q = 0 := Nat.le_zero.mp hle
    rw [h0]
    refine ⟨rfl, by intro i hi; exact absurd hi (by omega), ?_⟩
    rw [rayPt_zero]
    exact contains_false_of_runLen_zero hd g.bounds q h0
  | succ fuel ih =>
    intro q hle
    by_cases hc : g.bounds.contains q = true
    · have hrec := runLen_succ hd g.bounds q hc
      have hle' : runLen g.bounds dir (q.add d) ≤ fuel := by omega
      obtain ⟨ih1, ih2, ih3⟩ := ih (q.add d) hle'
      rw [hrec]
      refine ⟨?_, ?_, ?_⟩
      · rw [walkDir_succ, if_pos hc, ih1, ray_range_succ, List.filterMap_cons]
        cases hgq : g.get q <;> simp [hgq]
      · intro i hi
        cases i with
        | zero =>
          rw [rayPt_zero]
          exact hc
        | succ j =>
          rw [rayPt_succ]
          exact ih2 j (by omega)
      · rw [rayPt_succ]
        exact ih3
    · have h0 : runLen g.bounds dir q = 0 := by
        unfold runLen
        rw [if_neg hc]
      rw [h0]
      refine ⟨?_, by intro i hi; exact absurd hi (by omega), ?_⟩
      · rw [walkDir_succ, if_neg hc]
        rfl
      · rw [rayPt_zero]
        simpa using hc

/-- C2: for every Grid, every point `p` and each of the four orthogonal
directions, `get_in_direction(p, d)` is the filter of the stored values
along the outward ray from `p` (excluding `p` itself), in walking order,
over exactly the consecutive ray points inside the current Bounds; the
walk terminates exactly when the Bounds is exited (the next ray point is
outside), so no value stored outside the Bounds is ever collected. -/
theorem get_in_direction_spec (V : Type) (g : Grid V) (p : Point) (dir : Directions)
    (d : Int × Int) (hd : dir.offset = some d) :
    ∃ n, g.get_in_direction p dir =
        ((List.range n).map (fun i => rayPt (p.add d) d i)).filterMap g.get ∧
      (∀ i, i < n → g.bounds.contains (rayPt (p.add d) d i) = true) ∧
      (∀ i, i < n → rayPt (p.add d) d i ≠ p) ∧
      g.bounds.contains (rayPt (p.add d) d n) = false := by
  obtain ⟨h1, h2, h3⟩ :=
    walkDir_spec g hd g.dirFuel (p.add d) (runLen_le_dirFuel g dir (p.add d))
  refine ⟨runLen g.bounds dir (p.add d), ?_, h2, fun i _ => rayPt_ne_origin hd p i, h3⟩
  unfold Grid.get_in_direction
  rw [hd]
  exact h1

/-- A small concrete column grid for the C2 witness. -/
def gridC2 : Grid Int :=
  ((Grid.default.set ⟨0, 0⟩ 1).set ⟨0, 1⟩ 2).set ⟨0, 2⟩ 3

/-- Witness for C2: the ray characterization instantiated on a concrete
three-cell column grid, walking downward from its top cell. -/
theorem get_in_direction_spec_witness :
    ∃ n, gridC2.get_in_direction ⟨0, 0⟩ .bottom =
        ((List.range n).map
          (fun i => rayPt ((⟨0, 0⟩ : Point).add (0, 1)) (0, 1) i)).filterMap gridC2.get ∧
      (∀ i, i < n →
        gridC2.bounds.contains (rayPt ((⟨0, 0⟩ : Point).add (0, 1)) (0, 1) i) = true) ∧
      (∀ i, i < n → rayPt ((⟨0, 0⟩ : Point).add (0, 1)) (0, 1) i ≠ ⟨0, 0⟩) ∧
      gridC2.bounds.contains (rayPt ((⟨0, 0⟩ : Point).add (0, 1)) (0, 1) n) = false :=
  get_in_direction_spec Int gridC2 ⟨0, 0⟩ .bottom (0, 1) rfl

/-- Membership characterization of the `deduplicate` fold. -/
lemma mem_dedup_aux {α : Type} [DecidableEq α] (xs acc : List α) (a : α) :
    a ∈ xs.foldl (fun r i => if i ∈ r then r else r ++ [i]) acc ↔ a ∈ acc ∨ a ∈ xs := by
  induction xs generalizing acc with
  | nil => simp
  | cons x xs ih =>
    simp only [List.foldl_cons]
    rw [ih]
    by_cases hx : x ∈ acc
    · rw [if_pos hx]
      constructor
      · rintro (h | h)
        · exact Or.inl h
        · exact Or.inr (List.mem_cons_of_mem x h)
      · rintro (h | h)
        · exact Or.inl h
        · rcases List.mem_cons.mp h with rfl | h
          · exact Or.inl hx
          · exact Or.inr h
    · rw [if_neg hx]
      constructor
      · rintro (h | h)
        · rcases List.mem_append.mp h with h | h
          · exact Or.inl h
          · rw [List.mem_singleton] at h
            subst h
            exact Or.inr (List.mem_cons_self _ _)
        · exact Or.inr (List.mem_cons_of_mem x h)
      · rintro (h | h)
        · exact Or.inl (List.mem_append.mpr (Or.inl h))
        · rcases List.mem_cons.mp h with rfl | h
          · exact Or.inl (List.mem_append.mpr (Or.inr (List.mem_singleton.mpr rfl)))
          · exact Or.inr h

/-- An element is in the deduplicated list exactly when it is in the
original list. -/
lemma deduplicate_mem {α : Type} [DecidableEq α] (xs : List α) (a : α) :
    a ∈ deduplicate xs ↔ a ∈ xs := by
  unfold deduplicate
  rw [mem_dedup_aux]
  simp

/-- The `deduplicate` fold absorbs elements already accumulated. -/
lemma dedup_aux_absorb {α : Type} [DecidableEq α] (xs acc : List α)
    (h : ∀ a ∈ xs, a ∈ acc) :
    xs.foldl (fun r i => if i ∈ r then r else r ++ [i]) acc = acc := by
  induction xs with
  | nil => rfl
  | cons x xs ih =>
    simp only [List.foldl_cons, if_pos (h x (List.mem_cons_self x xs))]
    exact ih (fun a ha => h a (List.mem_cons_of_mem x ha))

/-- Deduplicating a nonempty constant list gives the singleton. -/
lemma dedup_all_eq {α : Type} [DecidableEq α] (xs : List α) (w : α)
    (hne : xs ≠ []) (hall : ∀ a ∈ xs, a = w) : deduplicate xs = [w] := by
  cases xs with
  | nil => exact absurd rfl hne
  | cons x rest =>
    have hx : x = w := hall x (List.mem_cons_self x rest)
    subst hx
    unfold deduplicate
    simp only [List.foldl_cons, List.not_mem_nil, if_neg (List.not_mem_nil x),
      List.nil_append]
    exact dedup_aux_absorb rest [x] (fun a ha => by
      rw [hall a (List.mem_cons_of_mem x ha)]
      exact List.mem_singleton.mpr rfl)

/-- A row of digit characters always produces a row entry list. -/
lemma rowEntries_ok (y : Int) (r : List Char) (h : ∀ c ∈ r, c.isDigit = true) :
    ∀ x0 : Int, ∃ es, rowEntries y x0 r = Except.ok es := by
  induction r with
  | nil => exact fun x0 => ⟨[], rfl⟩
  | cons c cs ih =>
    intro x0
    obtain ⟨es, hes⟩ := ih (fun c hc => h c (List.mem_cons_of_mem _ hc)) (x0 + 1)
    have hc : charDigit c = Except.ok ((c.toNat : Int) - 48) := by
      unfold charDigit
      rw [if_pos (h c (List.mem_cons_self c cs))]
    refine ⟨(⟨x0, y⟩, (c.toNat : Int) - 48) :: es, ?_⟩
    simp only [rowEntries, hc, hes]
    rfl

/-- A block of digit rows always produces a grid entry list. -/
lemma gridEntries_ok (rows : List (List Char))
    (h : ∀ r ∈ rows, ∀ c ∈ r, c.isDigit = true) :
    ∀ y0 : Int, ∃ es, gridEntries y0 rows = Except.ok es := by
  induction rows with
  | nil => exact fun y0 => ⟨[], rfl⟩
  | cons r rs ih =>
    intro y0
    obtain ⟨es1, hes1⟩ := rowEntries_ok y0 r (h r (List.mem_cons_self r rs)) 0
    obtain ⟨es2, hes2⟩ := ih (fun r hr => h r (List.mem_cons_of_mem _ hr)) (y0 + 1)
    refine ⟨es1 ++ es2, ?_⟩
    simp only [gridEntries, hes1, hes2]
    rfl

/-- C3 counterexample: the Grid parser itself does not enforce
rectangularity.  The ragged input "1" / "22" parses into a Grid
successfully (spec section 3: rectangularity is "only enforced by
callers, not the Grid itself"), while the day-8 wrapper rejects it with
the descriptive format error. -/
theorem grid_parse_accepts_ragged :
    grid_from_string "1\n22" =
      Except.ok (applyEntries [(⟨0, 0⟩, 1), (⟨0, 1⟩, 2), (⟨1, 1⟩, 2)]) ∧
    parse_input "1\n22" =
      Except.error "Expected input lines to all have the same length, but got: 1, 2" := by
  constructor <;> rfl

/-- C3 amended: the day-8 `parse_input` wrapper returns the descriptive
format error whenever some row's length differs from the first row's
(rectangularity is enforced by this caller, not by the Grid parser), and
succeeds on every nonempty rectangular input over the digit alphabet. -/
theorem parse_input_rectangularity :
    (∀ (s : String) (l0 l : List Char), (rustLines s).head? = some l0 →
      l ∈ rustLines s → l.length ≠ l0.length →
      ∃ msg, parse_input s = Except.error msg) ∧
    (∀ (s : String) (l0 : List Char), (rustLines s).head? = some l0 →
      (∀ l ∈ rustLines s, l.length = l0.length) →
      (∀ l ∈ rustLines s, ∀ c ∈ l, c.isDigit = true) →
      ∃ f, parse_input s = Except.ok f) := by
  constructor
  · intro s l0 l h0 hl hne
    have hm0 : l0.length ∈ deduplicate ((rustLines s).map (fun l => l.length)) :=
      (deduplicate_mem _ _).mpr (List.mem_map_of_mem _ (List.mem_of_mem_head? h0))
    have hml : l.length ∈ deduplicate ((rustLines s).map (fun l => l.length)) :=
      (deduplicate_mem _ _).mpr (List.mem_map_of_mem _ hl)
    have hlen : (deduplicate ((rustLines s).map (fun l => l.length))).length ≠ 1 := by
      intro h1
      obtain ⟨a, ha⟩ := List.length_eq_one.mp h1
      rw [ha] at hm0 hml
      simp only [List.mem_singleton] at hm0 hml
      exact hne (hml.trans hm0.symm)
    refine ⟨"Expected input lines to all have the same length, but got: " ++
      String.intercalate ", "
        ((deduplicate ((rustLines s).map (fun l => l.length))).map (fun l => toString l)), ?_⟩
    unfold parse_input
    rw [if_pos hlen]
  · intro s l0 h0 hlen hdig
    have hne : rustLines s ≠ [] := by
      intro h
      rw [h] at h0
      cases h0
    have hd : deduplicate ((rustLines s).map (fun l => l.length)) = [l0.length] := by
      apply dedup_all_eq
      · simpa using hne
      · intro a ha
        obtain ⟨l, hl, rfl⟩ := List.mem_map.mp ha
        exact hlen l hl
    have h1 : ¬ ((deduplicate ((rustLines s).map (fun l => l.length))).length ≠ 1) := by
      rw [hd]
      simp
    obtain ⟨es, hes⟩ := gridEntries_ok (rustLines s) hdig 0
    refine ⟨⟨applyEntries es⟩, ?_⟩
    unfold parse_input
    rw [if_neg h1]
    unfold grid_from_string
    rw [hes]
    rfl

/-- Witness for C3's amended theorem: the ragged input "1" / "22" is
rejected by the wrapper and the rectangular digit input "12" / "34" is
accepted. -/
theorem parse_input_rectangularity_witness :
    (∃ msg, parse_input "1\n22" = Except.error msg) ∧
    (∃ f, parse_input "12\n34" = Except.ok f) :=
  ⟨parse_input_rectangularity.1 "1\n22" ['1'] ['2', '2'] (by decide) (by decide) (by decide),
   parse_input_rectangularity.2 "12\n34" ['1', '2'] (by decide) (by decide) (by decide)⟩

/-- Unfolding of one iteration of the falling-sand loop. -/
lemma sandFall_succ (g : Grid Tile) (fl : Option Int) (fuel : Nat) (cur : Point) :
    sandFall g fl (fuel + 1) cur =
      match get_tile g ⟨cur.x, cur.y + 1⟩ fl with
      | none => some (.abyss ⟨cur.x, cur.y + 1⟩)
      | some Tile.air | some Tile.extruder => sandFall g fl fuel ⟨cur.x, cur.y + 1⟩
      | some Tile.rock | some Tile.sand =>
        match get_tile g ⟨cur.x - 1, cur.y + 1⟩ fl with
        | none | some Tile.air | some Tile.extruder =>
            sandFall g fl fuel ⟨cur.x - 1, cur.y + 1⟩
        | some Tile.rock | some Tile.sand =>
          match get_tile g ⟨cur.x + 1, cur.y + 1⟩ fl with
          | none | some Tile.air | some Tile.extruder =>
              sandFall g fl fuel ⟨cur.x + 1, cur.y + 1⟩
          | some Tile.rock | some Tile.sand => some (.rest cur) := rfl

/-- A tile read without flooring succeeds exactly on points inside the
Bounds. -/
lemma get_tile_none_contains (g : Grid Tile) (p : Point) (t : Tile)
    (h : get_tile g p none = some t) : g.bounds.contains p = true := by
  by_cases hc : g.bounds.contains p = true
  · exact hc
  · unfold get_tile at h
    rw [if_neg hc] at h
    cases h

/-- A tile read without flooring fails exactly on points outside the
Bounds. -/
lemma get_tile_none_out (g : Grid Tile) (p : Point)
    (h : get_tile g p none = none) : g.bounds.contains p = false := by
  by_cases hc : g.bounds.contains p = true
  · unfold get_tile at h
    rw [if_pos hc] at h
    cases h
  · simpa using hc

/-- With no flooring and enough fuel, a falling sand unit either reaches a
point outside the Bounds (abyss) or comes to rest at a point inside the
Bounds. -/
lemma sandFall_spec (g : Grid Tile) :
    ∀ (fuel : Nat) (cur : Point),
      g.bounds.top ≤ cur.y →
      (g.bounds.bottom + 1 - cur.y).toNat < fuel →
      (∃ q, sandFall g none fuel cur = some (.abyss q) ∧
        g.bounds.contains q = false) ∨
      (∃ q, sandFall g none fuel cur = some (.rest q) ∧
        g.bounds.contains q = true) := by
  intro fuel
  induction fuel with
  | zero =>
    intro cur _ hf
    exact absurd hf (by omega)
  | succ fuel ih =>
    intro cur htop hf
    cases hnext : get_tile g ⟨cur.x, cur.y + 1⟩ none with
    | none =>
      left
      refine ⟨⟨cur.x, cur.y + 1⟩, ?_, get_tile_none_out g _ hnext⟩
      rw [sandFall_succ]
      rw [hnext]
    | some t =>
      have hcn := get_tile_none_contains g _ t hnext
      have hcn' := hcn
      simp only [Bounds.contains, Bool.and_eq_true, decide_eq_true_eq] at hcn'
      cases t with
      | air =>
        have := ih ⟨cur.x, cur.y + 1⟩ (by dsimp only; omega) (by dsimp only; omega)
        rw [sandFall_succ, hnext]
        exact this
      | extruder =>
        have := ih ⟨cur.x, cur.y + 1⟩ (by dsimp only; omega) (by dsimp only; omega)
        rw [sandFall_succ, hnext]
        exact this
      | rock =>
        rw [sandFall_succ, hnext]
        cases hlft : get_tile g ⟨cur.x - 1, cur.y + 1⟩ none with
        | none =>
          exact ih ⟨cur.x - 1, cur.y + 1⟩ (by dsimp only; omega) (by dsimp only; omega)
        | some tl =>
          cases tl with
          | air =>
            exact ih ⟨cur.x - 1, cur.y + 1⟩ (by dsimp only; omega) (by dsimp only; omega)
          | extruder =>
            exact ih ⟨cur.x - 1, cur.y + 1⟩ (by dsimp only; omega) (by dsimp only; omega)
          | rock =>
            cases hrgt : get_tile g ⟨cur.x + 1, cur.y + 1⟩ none with
            | none =>
              exact ih ⟨cur.x + 1, cur.y + 1⟩ (by dsimp only; omega) (by dsimp only; omega)
            | some tr =>
              cases tr with
              | air =>
                exact ih ⟨cur.x + 1, cur.y + 1⟩ (by dsimp only; omega) (by dsimp only; omega)
              | extruder =>
                exact ih ⟨cur.x + 1, cur.y + 1⟩ (by dsimp only; omega) (by dsimp only; omega)
              | rock =>
                right
                refine ⟨cur, rfl, ?_⟩
                simp only [Bounds.contains, Bool.and_eq_true, decide_eq_true_eq]
                omega
              | sand =>
                right
                refine ⟨cur, rfl, ?_⟩
                simp only [Bounds.contains, Bool.and_eq_true, decide_eq_true_eq]
                omega
          | sand =>
            cases hrgt : get_tile g ⟨cur.x + 1, cur.y + 1⟩ none with
            | none =>
              exact ih ⟨cur.x + 1, cur.y + 1⟩ (by dsimp only; omega) (by dsimp only; omega)
            | some tr =>
              cases tr with
              | air =>
                exact ih ⟨cur.x + 1, cur.y + 1⟩ (by dsimp only; omega) (by dsimp only; omega)
              | extruder =>
                exact ih ⟨cur.x + 1, cur.y + 1⟩ (by dsimp only; omega) (by dsimp only; omega)
              | rock =>
                right
                refine ⟨cur, rfl, ?_⟩
                simp only [Bounds.contains, Bool.and_eq_true, decide_eq_true_eq]
                omega
              | sand =>
                right
                refine ⟨cur, rfl, ?_⟩
                simp only [Bounds.contains, Bool.and_eq_true, decide_eq_true_eq]
                omega
      | sand =>
        rw [sandFall_succ, hnext]
        cases hlft : get_tile g ⟨cur.x - 1, cur.y + 1⟩ none with
        | none =>
          exact ih ⟨cur.x - 1, cur.y + 1⟩ (by dsimp only; omega) (by dsimp only; omega)
        | some tl =>
          cases tl with
          | air =>
            exact ih ⟨cur.x - 1, cur.y + 1⟩ (by dsimp only; omega) (by dsimp only; omega)
          | extruder =>
            exact ih ⟨cur.x - 1, cur.y + 1⟩ (by dsimp only; omega) (by dsimp only; omega)
          | rock =>
            cases hrgt : get_tile g ⟨cur.x + 1, cur.y + 1⟩ none with
            | none =>
              exact ih ⟨cur.x + 1, cur.y + 1⟩ (by dsimp only; omega) (by dsimp only; omega)
            | some tr =>
              cases tr with
              | air =>
                exact ih ⟨cur.x + 1, cur.y + 1⟩ (by dsimp only; omega) (by dsimp only; omega)
              | extruder =>
                exact ih ⟨cur.x + 1, cur.y + 1⟩ (by dsimp only; omega) (by dsimp only; omega)
              | rock =>
                right
                refine ⟨cur, rfl, ?_⟩
                simp only [Bounds.contains, Bool.and_eq_true, decide_eq_true_eq]
                omega
              | sand =>
                right
                refine ⟨cur, rfl, ?_⟩
                simp only [Bounds.contains, Bool.and_eq_true, decide_eq_true_eq]
                omega
          | sand =>
            cases hrgt : get_tile g ⟨cur.x + 1, cur.y + 1⟩ none with
            | none =>
              exact ih ⟨cur.x + 1, cur.y + 1⟩ (by dsimp only; omega) (by dsimp only; omega)
            | some tr =>
              cases tr with
              | air =>
                exact ih ⟨cur.x + 1, cur.y + 1⟩ (by dsimp only; omega) (by dsimp only; omega)
              | extruder =>
                exact ih ⟨cur.x + 1, cur.y + 1⟩ (by dsimp only; omega) (by dsimp only; omega)
              | rock =>
                right
                refine ⟨cur, rfl, ?_⟩
                simp only [Bounds.contains, Bool.and_eq_true, decide_eq_true_eq]
                omega
              | sand =>
                right
                refine ⟨cur, rfl, ?_⟩
                simp only [Bounds.contains, Bool.and_eq_true, decide_eq_true_eq]
                omega

/-- C7: for every cave Grid containing an Extruder tile (inside its
Bounds, as every Grid built through `set` is), `drop_sand` with
`flooring = None` terminates and returns `false` exactly when the
simulated sand unit reaches a point outside the cave's current Bounds;
in that case the cave is returned unchanged (no Sand tile inserted).
Otherwise the unit comes to rest at an in-bounds point and the only
change is the Sand tile set there.  Termination is decided by the
current Bounds, not an infinite plane. -/
theorem drop_sand_none_spec (g : Grid Tile) (e : Point)
    (hfind : findExtruder g = some e)
    (hin : g.bounds.contains e = true) :
    (∃ q, sandFall g none (dropFuel g none e) e = some (.abyss q) ∧
      g.bounds.contains q = false ∧ drop_sand g none = some (false, g)) ∨
    (∃ q, sandFall g none (dropFuel g none e) e = some (.rest q) ∧
      g.bounds.contains q = true ∧
      drop_sand g none = some (true, g.set q Tile.sand)) := by
  have hin' := hin
  simp only [Bounds.contains, Bool.and_eq_true, decide_eq_true_eq] at hin'
  have hf : (g.bounds.bottom + 1 - e.y).toNat < dropFuel g none e := by
    unfold dropFuel
    rw [show fallLimit g none = g.bounds.bottom from rfl]
    omega
  rcases sandFall_spec g (dropFuel g none e) e (by omega) hf with
    ⟨q, hq, hqc⟩ | ⟨q, hq, hqc⟩
  · left
    refine ⟨q, hq, hqc, ?_⟩
    simp only [drop_sand, hfind, hq]
  · right
    refine ⟨q, hq, hqc, ?_⟩
    simp only [drop_sand, hfind, hq]

/-- The one-cell cave used by the C7 witness: a lone extruder at the
origin. -/
def c7cave : Grid Tile := Grid.default.set ⟨0, 0⟩ Tile.extruder

/-- Witness for C7: on the one-cell cave the sand unit immediately leaves
the known area below the extruder and `drop_sand` reports `false` with
the cave unchanged. -/
theorem drop_sand_none_spec_witness :
    (∃ q, sandFall c7cave none (dropFuel c7cave none ⟨0, 0⟩) ⟨0, 0⟩ = some (.abyss q) ∧
      c7cave.bounds.contains q = false ∧ drop_sand c7cave none = some (false, c7cave)) ∨
    (∃ q, sandFall c7cave none (dropFuel c7cave none ⟨0, 0⟩) ⟨0, 0⟩ = some (.rest q) ∧
      c7cave.bounds.contains q = true ∧
      drop_sand c7cave none = some (true, c7cave.set q Tile.sand)) :=
  drop_sand_none_spec c7cave ⟨0, 0⟩ (by decide) (by decide)

/-- Last-write-wins lookup over an entry list: later entries shadow
earlier ones, matching a fold of `set` calls. -/
def lookupLast {V : Type} : List (Point × V) → Point → Option V
  | [], _ => none
  | e :: es, q =>
    match lookupLast es q with
    | some v => some v
    | none => if e.1 = q then some e.2 else none

/-- Lookup after an association-list update. -/
lemma find?_setCells {V : Type} (cs : List (Point × V)) (p : Point) (v : V) (q : Point) :
    ((setCells cs p v).find? (fun c => decide (c.1 = q))).map (fun c => c.2) =
      if p = q then some v
      else (cs.find? (fun c => decide (c.1 = q))).map (fun c => c.2) := by
  induction cs with
  | nil =>
    simp only [setCells, List.find?]
    by_cases hpq : p = q <;> simp [hpq]
  | cons c cs ih =>
    by_cases hc : c.1 = p
    · simp only [setCells, if_pos hc]
      by_cases hpq : p = q
      · simp [List.find?, hpq]
      · have hcq : ¬ (c.1 = q) := by
          rw [hc]
          exact hpq
        simp [List.find?, hpq, hcq]
    · simp only [setCells, if_neg hc]
      by_cases hcq : c.1 = q
      · have hpq : ¬ (p = q) := by
          intro h
          exact hc (hcq.trans h.symm)
        simp [List.find?, hcq, hpq]
      · have h1 : (c :: setCells cs p v).find? (fun c => decide (c.1 = q)) =
            (setCells cs p v).find? (fun c => decide (c.1 = q)) := by
          simp [List.find?, hcq]
        have h2 : (c :: cs).find? (fun c => decide (c.1 = q)) =
            cs.find? (fun c => decide (c.1 = q)) := by
          simp [List.find?, hcq]
        rw [h1, ih, h2]

/-- Reading back after a `set`: the inserted key returns the new value,
every other key is unchanged. -/
lemma Grid.get_set {V : Type} (g : Grid V) (p : Point) (v : V) (q : Point) :
    (g.set p v).get q = if p = q then some v else g.get q :=
  find?_setCells g.cells p v q

/-- Reading back after a fold of `set` calls: the last write wins,
falling back to the initial grid. -/
lemma get_foldl_set {V : Type} (es : List (Point × V)) (q : Point) :
    ∀ g : Grid V,
      (es.foldl (fun g e => g.set e.1 e.2) g).get q =
        match lookupLast es q with
        | some v => some v
        | none => g.get q := by
  induction es with
  | nil => intro g; rfl
  | cons e es ih =>
    intro g
    simp only [List.foldl_cons, lookupLast]
    rw [ih]
    cases hl : lookupLast es q with
    | some v => rfl
    | none =>
      rw [Grid.get_set]
      by_cases hpq : e.1 = q <;> simp [hpq]

/-- Reading a grid built from an entry list is last-write-wins lookup. -/
lemma get_applyEntries {V : Type} (es : List (Point × V)) (q : Point) :
    (applyEntries es).get q = lookupLast es q := by
  unfold applyEntries
  rw [get_foldl_set]
  cases hl : lookupLast es q with
  | some v => rfl
  | none => rfl

/-- Last-write-wins lookup over an appended entry list. -/
lemma lookupLast_append {V : Type} (bs : List (Point × V)) (q : Point) :
    ∀ as : List (Point × V),
      lookupLast (as ++ bs) q =
        match lookupLast bs q with
        | some v => some v
        | none => lookupLast as q := by
  intro as
  induction as with
  | nil =>
    simp only [List.nil_append, lookupLast]
    cases lookupLast bs q <;> rfl
  | cons a as ih =>
    have hstep : lookupLast ((a :: as) ++ bs) q =
        match lookupLast (as ++ bs) q with
        | some v => some v
        | none => if a.1 = q then some a.2 else none := rfl
    have hstep2 : lookupLast (a :: as) q =
        match lookupLast as q with
        | some v => some v
        | none => if a.1 = q then some a.2 else none := rfl
    rw [hstep, ih, hstep2]
    cases lookupLast bs q <;> cases lookupLast as q <;> rfl

/-- A successful last-write-wins lookup exhibits a member of the list. -/
lemma lookupLast_mem {V : Type} (q : Point) (v : V) :
    ∀ es : List (Point × V), lookupLast es q = some v → (q, v) ∈ es := by
  intro es
  induction es with
  | nil => intro h; cases h
  | cons e es ih =>
    intro h
    simp only [lookupLast] at h
    cases hl : lookupLast es q with
    | some w =>
      rw [hl] at h
      cases h
      exact List.mem_cons_of_mem e (ih hl)
    | none =>
      rw [hl] at h
      by_cases hq : e.1 = q
      · rw [if_pos hq] at h
        cases h
        have : e = (q, e.2) := by
          cases e
          simp_all
        rw [this] at *
        exact List.mem_cons_self _ _
      · rw [if_neg hq] at h
        cases h

/-- The entry list a row of digit characters parses to. -/
def rowList (y : Int) (x0 : Int) : List Char → List (Point × Int)
  | [] => []
  | c :: cs => (⟨x0, y⟩, (c.toNat : Int) - 48) :: rowList y (x0 + 1) cs

/-- The entry list a block of digit rows parses to. -/
def gridList (y0 : Int) : List (List Char) → List (Point × Int)
  | [] => []
  | r :: rs => rowList y0 0 r ++ gridList (y0 + 1) rs

/-- On digit rows, `rowEntries` succeeds with exactly `rowList`. -/
lemma rowEntries_eq_rowList (y : Int) (r : List Char)
    (h : ∀ c ∈ r, c.isDigit = true) :
    ∀ x0 : Int, rowEntries y x0 r = Except.ok (rowList y x0 r) := by
  induction r with
  | nil => exact fun x0 => rfl
  | cons c cs ih =>
    intro x0
    have hc : charDigit c = Except.ok ((c.toNat : Int) - 48) := by
      unfold charDigit
      rw [if_pos (h c (List.mem_cons_self c cs))]
    have hcs := ih (fun c hc => h c (List.mem_cons_of_mem _ hc)) (x0 + 1)
    simp only [rowEntries, hc, hcs, rowList]
    rfl

/-- On digit blocks, `gridEntries` succeeds with exactly `gridList`. -/
lemma gridEntries_eq_gridList (rows : List (List Char))
    (h : ∀ r ∈ rows, ∀ c ∈ r, c.isDigit = true) :
    ∀ y0 : Int, gridEntries y0 rows = Except.ok (gridList y0 rows) := by
  induction rows with
  | nil => exact fun y0 => rfl
  | cons r rs ih =>
    intro y0
    have h1 := rowEntries_eq_rowList y0 r (h r (List.mem_cons_self r rs)) 0
    have h2 := ih (fun r hr => h r (List.mem_cons_of_mem _ hr)) (y0 + 1)
    simp only [gridEntries, h1, h2, gridList]
    rfl

/-- Closed form of last-write-wins lookup on a parsed row: a hit exactly
on the row's y at a column inside the row, returning its digit value. -/
lemma lookupLast_rowList (y : Int) (r : List Char) (q : Point) :
    ∀ x0 : Int,
      lookupLast (rowList y x0 r) q =
        if q.y = y ∧ x0 ≤ q.x ∧ q.x < x0 + (r.length : Int) then
          (r.get? (q.x - x0).toNat).map (fun c => ((c.toNat : Int) - 48))
        else none := by
  induction r with
  | nil =>
    intro x0
    have hcond : ¬ (q.y = y ∧ x0 ≤ q.x ∧ q.x < x0 + (([] : List Char).length : Int)) := by
      rintro ⟨_, hx1, hx2⟩
      simp only [List.length_nil, Nat.cast_zero, add_zero] at hx2
      omega
    rw [if_neg hcond]
    rfl
  | cons c cs ih =>
    intro x0
    simp only [rowList, lookupLast]
    rw [ih (x0 + 1)]
    have hlen : (((c :: cs) : List Char).length : Int) = (cs.length : Int) + 1 := by
      simp only [List.length_cons]
      push_cast
      ring
    by_cases h1 : q.y = y ∧ x0 + 1 ≤ q.x ∧ q.x < x0 + 1 + (cs.length : Int)
    · rw [if_pos h1]
      have hidx : (q.x - (x0 + 1)).toNat < cs.length := by omega
      have hcond : q.y = y ∧ x0 ≤ q.x ∧ q.x < x0 + (((c :: cs) : List Char).length : Int) := by
        rw [hlen]
        omega
      rw [List.get?_eq_get hidx, if_pos hcond]
      rw [show (q.x - x0).toNat = (q.x - (x0 + 1)).toNat + 1 from by omega]
      rw [List.get?_cons_succ, List.get?_eq_get hidx]
      rfl
    · rw [if_neg h1]
      by_cases h2 : (⟨x0, y⟩ : Point) = q
      · have hqx : x0 = q.x := by rw [← h2]
        have hqy : y = q.y := by rw [← h2]
        have hcond : q.y = y ∧ x0 ≤ q.x ∧ q.x < x0 + (((c :: cs) : List Char).length : Int) := by
          rw [hlen]
          refine ⟨hqy.symm, by omega, by omega⟩
        rw [if_pos h2, if_pos hcond]
        rw [show (q.x - x0).toNat = 0 from by omega]
        rfl
      · have hcond : ¬ (q.y = y ∧ x0 ≤ q.x ∧
            q.x < x0 + (((c :: cs) : List Char).length : Int)) := by
          rw [hlen]
          rintro ⟨hy, hx1, hx2⟩
          by_cases hx : x0 + 1 ≤ q.x
          · exact h1 ⟨hy, hx, by omega⟩
          · exact h2 (Point.eq_of_coords (by dsimp only; omega) hy.symm)
        rw [if_neg h2, if_neg hcond]

/-- Closed form of last-write-wins lookup on a parsed rectangular block:
a hit exactly inside the h-by-w rectangle, returning the digit value of
the corresponding character. -/
lemma lookupLast_gridList (rows : List (List Char)) (w : Int) (q : Point)
    (hrect : ∀ r ∈ rows, (r.length : Int) = w) :
    ∀ y0 : Int,
      lookupLast (gridList y0 rows) q =
        if y0 ≤ q.y ∧ q.y < y0 + (rows.length : Int) ∧ 0 ≤ q.x ∧ q.x < w then
          ((rows.get? (q.y - y0).toNat).bind (fun r => r.get? q.x.toNat)).map
            (fun c => ((c.toNat : Int) - 48))
        else none := by
  induction rows with
  | nil =>
    intro y0
    have hcond : ¬ (y0 ≤ q.y ∧ q.y < y0 + (([] : List (List Char)).length : Int) ∧
        0 ≤ q.x ∧ q.x < w) := by
      rintro ⟨hy1, hy2, _, _⟩
      simp only [List.length_nil, Nat.cast_zero, add_zero] at hy2
      omega
    rw [if_neg hcond]
    rfl
  | cons r rs ih =>
    intro y0
    have hrect' : ∀ r ∈ rs, (r.length : Int) = w :=
      fun r hr => hrect r (List.mem_cons_of_mem _ hr)
    have hrw : (r.length : Int) = w := hrect r (List.mem_cons_self r rs)
    have hlen : (((r :: rs) : List (List Char)).length : Int) = (rs.length : Int) + 1 := by
      simp only [List.length_cons]
      push_cast
      ring
    show lookupLast (rowList y0 0 r ++ gridList (y0 + 1) rs) q = _
    rw [lookupLast_append, ih hrect' (y0 + 1), lookupLast_rowList y0 r q 0]
    by_cases ht : y0 + 1 ≤ q.y ∧ q.y < y0 + 1 + (rs.length : Int) ∧ 0 ≤ q.x ∧ q.x < w
    · have hi : (q.y - (y0 + 1)).toNat < rs.length := by omega
      have hrr := List.get?_eq_get hi
      have hmem : rs.get ⟨(q.y - (y0 + 1)).toNat, hi⟩ ∈ rs := List.get_mem rs _ hi
      have hlr : ((rs.get ⟨(q.y - (y0 + 1)).toNat, hi⟩).length : Int) = w := hrect' _ hmem
      have hx : q.x.toNat < (rs.get ⟨(q.y - (y0 + 1)).toNat, hi⟩).length := by omega
      have hcond : y0 ≤ q.y ∧ q.y < y0 + (((r :: rs) : List (List Char)).length : Int) ∧
          0 ≤ q.x ∧ q.x < w := by
        rw [hlen]
        omega
      rw [if_pos ht, hrr, if_pos hcond]
      rw [show (q.y - y0).toNat = (q.y - (y0 + 1)).toNat + 1 from by omega]
      rw [List.get?_cons_succ, hrr]
      rw [show (some (rs.get ⟨(q.y - (y0 + 1)).toNat, hi⟩)).bind
          (fun r => r.get? q.x.toNat) =
          (rs.get ⟨(q.y - (y0 + 1)).toNat, hi⟩).get? q.x.toNat from rfl]
      rw [List.get?_eq_get hx]
      rfl
    · rw [if_neg ht]
      by_cases hh : q.y = y0 ∧ 0 ≤ q.x ∧ q.x < 0 + (r.length : Int)
      · have hcond : y0 ≤ q.y ∧ q.y < y0 + (((r :: rs) : List (List Char)).length : Int) ∧
            0 ≤ q.x ∧ q.x < w := by
          rw [hlen]
          obtain ⟨hy, hx1, hx2⟩ := hh
          omega
        have hx : q.x.toNat < r.length := by
          obtain ⟨hy, hx1, hx2⟩ := hh
          omega
        rw [if_pos hh, if_pos hcond]
        rw [show (q.y - y0).toNat = 0 from by
          obtain ⟨hy, _, _⟩ := hh
          omega]
        rw [show ((r :: rs).get? 0) = some r from rfl]
        rw [show (some r).bind (fun r => r.get? q.x.toNat) = r.get? q.x.toNat from rfl]
        rw [show q.x - 0 = q.x from by omega]
      · have hcond : ¬ (y0 ≤ q.y ∧ q.y < y0 + (((r :: rs) : List (List Char)).length : Int) ∧
            0 ≤ q.x ∧ q.x < w) := by
          rw [hlen]
          rintro ⟨hy1, hy2, hx1, hx2⟩
          by_cases hy : y0 + 1 ≤ q.y
          · exact ht ⟨hy, by omega, hx1, hx2⟩
          · exact hh ⟨by omega, hx1, by omega⟩
        rw [if_neg hh, if_neg hcond]

/-- Componentwise equality of Bounds. -/
lemma Bounds.eq_of_edges {a b : Bounds} (ht : a.top = b.top) (hl : a.left = b.left)
    (hb : a.bottom = b.bottom) (hr : a.right = b.right) : a = b := by
  cases a
  cases b
  simp_all

/-- A grid built from a nonempty entry list has entries. -/
lemma applyEntries_cells_ne_nil {V : Type} (es : List (Point × V)) (hne : es ≠ []) :
    (applyEntries es).cells ≠ [] := by
  cases es with
  | nil => exact absurd rfl hne
  | cons e es =>
    show (es.foldl (fun g e => g.set e.1 e.2) (Grid.default.set e.1 e.2)).cells ≠ []
    exact foldl_set_cells_ne_nil es _ (Grid.set_cells_ne_nil _ _ _)

/-- Folding `set` calls keeps the Bounds inside any box containing all
inserted points and the initial nonempty Bounds. -/
lemma foldl_set_bounds_box {V : Type} (lox hix loy hiy : Int) (es : List (Point × V))
    (hes : ∀ e ∈ es, lox ≤ e.1.x ∧ e.1.x ≤ hix ∧ loy ≤ e.1.y ∧ e.1.y ≤ hiy) :
    ∀ g : Grid V,
      (g.cells ≠ [] → lox ≤ g.bounds.left ∧ g.bounds.right ≤ hix ∧
        loy ≤ g.bounds.top ∧ g.bounds.bottom ≤ hiy) →
      ((es.foldl (fun g e => g.set e.1 e.2) g).cells ≠ [] →
        lox ≤ (es.foldl (fun g e => g.set e.1 e.2) g).bounds.left ∧
        (es.foldl (fun g e => g.set e.1 e.2) g).bounds.right ≤ hix ∧
        loy ≤ (es.foldl (fun g e => g.set e.1 e.2) g).bounds.top ∧
        (es.foldl (fun g e => g.set e.1 e.2) g).bounds.bottom ≤ hiy) := by
  induction es with
  | nil => exact fun g hg => hg
  | cons e es ih =>
    intro g hg
    simp only [List.foldl_cons]
    apply ih (fun e' he' => hes e' (List.mem_cons_of_mem _ he'))
    intro _
    obtain ⟨he1, he2, he3, he4⟩ := hes e (List.mem_cons_self _ _)
    obtain ⟨cells, b⟩ := g
    cases cells with
    | nil => exact ⟨he1, he2, he3, he4⟩
    | cons c cs =>
      have hb := hg (by simp)
      exact ⟨le_min hb.1 he1, max_le hb.2.1 he2, le_min hb.2.2.1 he3,
        max_le hb.2.2.2 he4⟩

/-- All entries of a parsed row lie on its y at columns inside the row. -/
lemma rowList_mem_box (y : Int) (r : List Char) :
    ∀ x0 : Int, ∀ e ∈ rowList y x0 r,
      e.1.y = y ∧ x0 ≤ e.1.x ∧ e.1.x < x0 + (r.length : Int) := by
  induction r with
  | nil =>
    intro x0 e he
    cases he
  | cons c cs ih =>
    intro x0 e he
    have hlen : (((c :: cs) : List Char).length : Int) = (cs.length : Int) + 1 := by
      simp only [List.length_cons]
      push_cast
      ring
    rcases List.mem_cons.mp he with rfl | he
    · exact ⟨rfl, le_refl _, by rw [hlen]; dsimp only; omega⟩
    · obtain ⟨h1, h2, h3⟩ := ih (x0 + 1) e he
      exact ⟨h1, by omega, by rw [hlen]; omega⟩

/-- All entries of a parsed rectangular block lie in its rectangle. -/
lemma gridList_mem_box (rows : List (List Char)) (w : Int)
    (hrect : ∀ r ∈ rows, (r.length : Int) = w) :
    ∀ y0 : Int, ∀ e ∈ gridList y0 rows,
      0 ≤ e.1.x ∧ e.1.x ≤ w - 1 ∧ y0 ≤ e.1.y ∧
        e.1.y ≤ y0 + (rows.length : Int) - 1 := by
  induction rows with
  | nil =>
    intro y0 e he
    cases he
  | cons r rs ih =>
    intro y0 e he
    have hlen : (((r :: rs) : List (List Char)).length : Int) = (rs.length : Int) + 1 := by
      simp only [List.length_cons]
      push_cast
      ring
    rw [show gridList y0 (r :: rs) = rowList y0 0 r ++ gridList (y0 + 1) rs from rfl] at he
    rcases List.mem_append.mp he with he | he
    · obtain ⟨h1, h2, h3⟩ := rowList_mem_box y0 r 0 e he
      have hw := hrect r (List.mem_cons_self r rs)
      refine ⟨by omega, by omega, by omega, by rw [hlen]; omega⟩
    · obtain ⟨h1, h2, h3, h4⟩ :=
        ih (fun r hr => hrect r (List.mem_cons_of_mem _ hr)) (y0 + 1) e he
      exact ⟨h1, h2, by omega, by rw [hlen]; omega⟩

/-- A rectangular block with at least one row and column parses to a
nonempty entry list. -/
lemma gridList_ne_nil (rows : List (List Char)) (w : Int)
    (hrect : ∀ r ∈ rows, (r.length : Int) = w)
    (hne : rows ≠ []) (hw : 1 ≤ w) : gridList 0 rows ≠ [] := by
  cases rows with
  | nil => exact absurd rfl hne
  | cons r rs =>
    have hr := hrect r (List.mem_cons_self r rs)
    cases r with
    | nil =>
      simp only [List.length_nil, Nat.cast_zero] at hr
      omega
    | cons c cs =>
      show rowList 0 0 (c :: cs) ++ gridList 1 rs ≠ []
      simp [rowList]

/-- Every in-rectangle point of a parsed rectangular block has a stored
value. -/
lemma lookupLast_gridList_isSome (rows : List (List Char)) (w : Int)
    (hrect : ∀ r ∈ rows, (r.length : Int) = w) (p : Point)
    (hx1 : 0 ≤ p.x) (hx2 : p.x < w) (hy1 : 0 ≤ p.y)
    (hy2 : p.y < (rows.length : Int)) :
    ∃ v, lookupLast (gridList 0 rows) p = some v := by
  rw [lookupLast_gridList rows w p hrect 0]
  rw [if_pos ⟨by omega, by omega, hx1, hx2⟩]
  have hylt : (p.y - 0).toNat < rows.length := by omega
  rw [List.get?_eq_get hylt]
  have hrlen : ((rows.get ⟨(p.y - 0).toNat, hylt⟩).length : Int) = w :=
    hrect _ (List.get_mem rows _ hylt)
  have hxlt : p.x.toNat < (rows.get ⟨(p.y - 0).toNat, hylt⟩).length := by omega
  rw [show (some (rows.get ⟨(p.y - 0).toNat, hylt⟩)).bind
      (fun r => r.get? p.x.toNat) =
      (rows.get ⟨(p.y - 0).toNat, hylt⟩).get? p.x.toNat from rfl]
  rw [List.get?_eq_get hxlt]
  exact ⟨_, rfl⟩

/-- The Bounds of the grid parsed from a nonempty rectangular digit block
is exactly the block's rectangle. -/
lemma applyEntries_gridList_bounds (rows : List (List Char)) (w : Int)
    (hrect : ∀ r ∈ rows, (r.length : Int) = w)
    (hne : rows ≠ []) (hw : 1 ≤ w) :
    (applyEntries (gridList 0 rows)).bounds =
      ⟨0, 0, (rows.length : Int) - 1, w - 1⟩ := by
  have hh : (1 : Int) ≤ (rows.length : Int) := by
    have := List.length_pos.mpr hne
    omega
  have hcontains : ∀ p : Point, 0 ≤ p.x → p.x < w → 0 ≤ p.y →
      p.y < (rows.length : Int) →
      (applyEntries (gridList 0 rows)).bounds.contains p = true := by
    intro p hx1 hx2 hy1 hy2
    obtain ⟨v, hv⟩ := lookupLast_gridList_isSome rows w hrect p hx1 hx2 hy1 hy2
    exact foldl_set_contains_mem (gridList 0 rows) Grid.default (p, v)
      (lookupLast_mem p v _ hv)
  have hbox := foldl_set_bounds_box 0 (w - 1) 0 (0 + (rows.length : Int) - 1)
    (gridList 0 rows) (gridList_mem_box rows w hrect 0) Grid.default
    (fun h => absurd rfl h)
    (applyEntries_cells_ne_nil _ (gridList_ne_nil rows w hrect hne hw))
  have hbox' : 0 ≤ (applyEntries (gridList 0 rows)).bounds.left ∧
      (applyEntries (gridList 0 rows)).bounds.right ≤ w - 1 ∧
      0 ≤ (applyEntries (gridList 0 rows)).bounds.top ∧
      (applyEntries (gridList 0 rows)).bounds.bottom ≤ 0 + (rows.length : Int) - 1 :=
    hbox
  clear hbox
  have hc1 := hcontains ⟨0, 0⟩ (show (0 : Int) ≤ 0 from le_refl 0)
    (show (0 : Int) < w from by omega) (show (0 : Int) ≤ 0 from le_refl 0)
    (show (0 : Int) < (rows.length : Int) from by omega)
  have hc2 := hcontains ⟨w - 1, 0⟩ (show (0 : Int) ≤ w - 1 from by omega)
    (show w - 1 < w from by omega) (show (0 : Int) ≤ 0 from le_refl 0)
    (show (0 : Int) < (rows.length : Int) from by omega)
  have hc3 := hcontains ⟨0, (rows.length : Int) - 1⟩
    (show (0 : Int) ≤ 0 from le_refl 0) (show (0 : Int) < w from by omega)
    (show (0 : Int) ≤ (rows.length : Int) - 1 from by omega)
    (show (rows.length : Int) - 1 < (rows.length : Int) from by omega)
  simp only [Bounds.contains, Bool.and_eq_true, decide_eq_true_eq] at hc1 hc2 hc3
  replace hc1 : (applyEntries (gridList 0 rows)).bounds.left ≤ 0 ∧
      (applyEntries (gridList 0 rows)).bounds.top ≤ 0 :=
    ⟨hc1.1.1.1, hc1.1.2⟩
  replace hc2 : w - 1 ≤ (applyEntries (gridList 0 rows)).bounds.right :=
    hc2.1.1.2
  replace hc3 : (rows.length : Int) - 1 ≤ (applyEntries (gridList 0 rows)).bounds.bottom :=
    hc3.2
  apply Bounds.eq_of_edges
  · show (applyEntries (gridList 0 rows)).bounds.top = 0
    omega
  · show (applyEntries (gridList 0 rows)).bounds.left = 0
    omega
  · show (applyEntries (gridList 0 rows)).bounds.bottom = (rows.length : Int) - 1
    omega
  · show (applyEntries (gridList 0 rows)).bounds.right = w - 1
    omega

/-- Modelled from the spec: the fixed value-to-character mapping used
when re-serializing a digit Grid (spec section 8); an absent value
renders as a blank (never hit on fully populated grids). -/
def digitCharOf (v : Option Int) : Char :=
  match v with
  | some v => Char.ofNat (48 + v.toNat)
  | none => ' '

/-- Modelled from the spec: re-serialization of a digit Grid by a
row-major walk over the Bounds rectangle (spec section 8), grouped in
rows. -/
def reprintRows (g : Grid Int) : List (List Char) :=
  g.bounds.ys.map (fun y => g.bounds.xs.map (fun x => digitCharOf (g.get ⟨x, y⟩)))

/-- Modelled from the spec: re-serialization of a digit Grid by the
row-major walk over `Bounds.points()` (spec section 8). -/
def pointsWalk (g : Grid Int) : List Char :=
  g.points.map (fun p => digitCharOf (g.get p))

/-- A digit character's code point lies between 48 and 57. -/
lemma isDigit_toNat_bounds (c : Char) (h : c.isDigit = true) :
    48 ≤ c.toNat ∧ c.toNat ≤ 57 := by
  simp only [Char.isDigit, Bool.and_eq_true, decide_eq_true_eq] at h
  obtain ⟨h1, h2⟩ := h
  have h1' : (48 : Nat) ≤ c.toNat := h1
  have h2' : c.toNat ≤ (57 : Nat) := h2
  exact ⟨h1', h2'⟩

/-- The digit mapping inverts the digit-to-integer parse. -/
lemma digitCharOf_digit (c : Char) (h : c.isDigit = true) :
    digitCharOf (some ((c.toNat : Int) - 48)) = c := by
  obtain ⟨h1, h2⟩ := isDigit_toNat_bounds c h
  show Char.ofNat (48 + ((c.toNat : Int) - 48).toNat) = c
  rw [show 48 + ((c.toNat : Int) - 48).toNat = c.toNat from by omega]
  exact Char.ofNat_toNat c

/-- Pointwise value of the parsed block at natural-number indexes. -/
lemma lookupLast_gridList_at (rows : List (List Char)) (w : Int)
    (hrect : ∀ r ∈ rows, (r.length : Int) = w) (i j : Nat)
    (hi : (i : Int) < w) (hj : j < rows.length)
    (hj2 : i < (rows.get ⟨j, hj⟩).length) :
    lookupLast (gridList 0 rows) ⟨(i : Int), (j : Int)⟩ =
      some ((((rows.get ⟨j, hj⟩).get ⟨i, hj2⟩).toNat : Int) - 48) := by
  rw [lookupLast_gridList rows w _ hrect 0]
  split
  next h =>
    rw [show (((j : Int)) - 0).toNat = j from by omega]
    rw [List.get?_eq_get hj]
    rw [show (some (rows.get ⟨j, hj⟩)).bind
        (fun r => r.get? ((i : Int) : Int).toNat) =
        (rows.get ⟨j, hj⟩).get? ((i : Int)).toNat from rfl]
    rw [show ((i : Int)).toNat = i from by omega]
    rw [List.get?_eq_get hj2]
    rfl
  next h =>
    exfalso
    apply h
    refine ⟨by show (0 : Int) ≤ (j : Int); omega,
      by show ((j : Int)) < 0 + (rows.length : Int); omega,
      by show (0 : Int) ≤ (i : Int); omega,
      by show ((i : Int)) < w; omega⟩

/-- Re-serializing the grid parsed from a nonempty rectangular digit
block reproduces the block's rows. -/
lemma roundtrip_rows (rows : List (List Char)) (w : Int)
    (hrect : ∀ r ∈ rows, (r.length : Int) = w)
    (hdig : ∀ r ∈ rows, ∀ c ∈ r, c.isDigit = true)
    (hne : rows ≠ []) (hw : 1 ≤ w) :
    reprintRows (applyEntries (gridList 0 rows)) = rows := by
  have hb := applyEntries_gridList_bounds rows w hrect hne hw
  unfold reprintRows
  rw [hb]
  have hys : (⟨0, 0, (rows.length : Int) - 1, w - 1⟩ : Bounds).ys =
      (List.range rows.length).map (fun i : Nat => ((i : Int))) := by
    show (List.range ((((rows.length : Int) - 1) + 1 - 0).toNat)).map
        (fun i : Nat => (0 : Int) + (i : Int)) =
      (List.range rows.length).map (fun i : Nat => ((i : Int)))
    rw [show (((rows.length : Int) - 1) + 1 - 0).toNat = rows.length from by omega]
    apply List.map_congr_left
    intro i _
    omega
  have hxs : (⟨0, 0, (rows.length : Int) - 1, w - 1⟩ : Bounds).xs =
      (List.range w.toNat).map (fun i : Nat => ((i : Int))) := by
    show (List.range (((w - 1) + 1 - 0).toNat)).map
        (fun i : Nat => (0 : Int) + (i : Int)) =
      (List.range w.toNat).map (fun i : Nat => ((i : Int)))
    rw [show ((w - 1) + 1 - 0).toNat = w.toNat from by omega]
    apply List.map_congr_left
    intro i _
    omega
  rw [hys, hxs, List.map_map]
  apply List.ext_getElem
  · simp
  · intro j hj1 hj2
    rw [List.getElem_map, List.getElem_range]
    simp only [Function.comp_apply]
    rw [List.map_map]
    have hj' : j < rows.length := by simpa using hj2
    have hmemj : rows.get ⟨j, hj'⟩ ∈ rows := List.get_mem rows _ hj'
    have hrj : (((rows.get ⟨j, hj'⟩).length : Nat) : Int) = w := hrect _ hmemj
    have hgetj : rows[j] = rows.get ⟨j, hj'⟩ := by
      simp [List.get_eq_getElem]
    rw [hgetj]
    apply List.ext_getElem
    · simp only [List.length_map, List.length_range]
      omega
    · intro i hi1 hi2
      rw [List.getElem_map, List.getElem_range]
      simp only [Function.comp_apply]
      rw [get_applyEntries]
      have hi1' : i < w.toNat := by simpa using hi1
      have hi' : (i : Int) < w := by omega
      have hj2' : i < (rows.get ⟨j, hj'⟩).length := by omega
      rw [lookupLast_gridList_at rows w hrect i j hi' hj' hj2']
      have hgeti : (rows.get ⟨j, hj'⟩)[i] = (rows.get ⟨j, hj'⟩).get ⟨i, hj2'⟩ := by
        simp [List.get_eq_getElem]
      rw [hgeti]
      exact digitCharOf_digit _
        (hdig _ hmemj _ (List.get_mem (rows.get ⟨j, hj'⟩) _ hj2'))

/-- The `Bounds.points()` walk is the flattening of the row-grouped
re-serialization. -/
lemma pointsWalk_eq_flatten (g : Grid Int) :
    pointsWalk g = (reprintRows g).flatten := by
  unfold pointsWalk reprintRows Grid.points Bounds.points
  rw [List.map_flatten, List.map_map]
  congr 1
  apply List.map_congr_left
  intro y _
  simp only [Function.comp_apply, List.map_map]
  rfl

/-- C4: parsing a rectangular character block over the digit alphabet
into a Grid and re-serializing by a row-major walk over the Bounds
rectangle (with the fixed value-to-character mapping) reproduces the
original block, row for row; in particular the block
"30373" / "25512" / "65332" re-walks to exactly those digits. -/
theorem grid_roundtrip :
    (∀ (s : String) (w : Int), rustLines s ≠ [] → 1 ≤ w →
      (∀ l ∈ rustLines s, (l.length : Int) = w) →
      (∀ l ∈ rustLines s, ∀ c ∈ l, c.isDigit = true) →
      ∃ g, grid_from_string s = Except.ok g ∧
        reprintRows g = rustLines s ∧ pointsWalk g = (rustLines s).flatten) ∧
    ((grid_from_string "30373\n25512\n65332\n").toOption.map pointsWalk =
      some ("303732551265332".data)) := by
  constructor
  · intro s w hne hw hrect hdig
    refine ⟨applyEntries (gridList 0 (rustLines s)), ?_, ?_, ?_⟩
    · unfold grid_from_string
      rw [gridEntries_eq_gridList (rustLines s) hdig 0]
      rfl
    · exact roundtrip_rows (rustLines s) w hrect hdig hne hw
    · rw [pointsWalk_eq_flatten, roundtrip_rows (rustLines s) w hrect hdig hne hw]
  · decide

/-- Witness for C4: the 2-by-2 digit block "12" / "34" parses and
re-walks to itself. -/
theorem grid_roundtrip_witness :
    ∃ g, grid_from_string "12\n34" = Except.ok g ∧
      reprintRows g = rustLines "12\n34" ∧
      pointsWalk g = (rustLines "12\n34").flatten :=
  grid_roundtrip.1 "12\n34" 2 (by decide) (by norm_num) (by decide) (by decide)

end Aoc
